import Mathlib

/-!
Verification of the Universal Cookie Extractor's vault core against its
specification.

The development shallowly embeds the repository's sync engine and crypto
envelope:

* `src/crypto.js` — PBKDF2-SHA-256 key derivation, AES-256-GCM encryption
  of the JSON-encoded cookie list, base64 transport encoding
  (`encryptCookies`, `decryptCookies`, `isAuthCookie`);
* the embedded `vault-sync.js` (`VaultSync`: `authenticate`, `ensureVault`,
  `filterDomains`, `syncToVault`);
* the embedded `cookie-vault.js` Node client (`decrypt`, `getCookies`);
* the `cookie_entries` schema (`unique(vault_id, domain)` with
  merge-duplicates upsert).

Bytes are modelled as `Nat` values below 256; machine words reduce modulo
`2 ^ 32` explicitly.  The platform primitives the source calls
(Web Crypto / Node `crypto`) are implemented here in full
(SHA-256, HMAC, PBKDF2, AES-256, GCM) so that the envelope functions are
the honest composites the source computes; none of the theorems depend on
unstated properties of these primitives.
-/
/-! ## Byte and word helpers -/
/-- Reduce to a 32-bit word, as the source's arithmetic does implicitly. -/
def w32 (n : Nat) : Nat := n % 4294967296

/-- Rotate a 32-bit word right by `r`. -/
def rotr32 (r x : Nat) : Nat := w32 ((x >>> r) ||| (x <<< (32 - r)))

/-- Big-endian byte decomposition, `k` bytes wide. -/
def natToBytesBE (k n : Nat) : List Nat :=
  (List.range k).map (fun i => (n >>> (8 * (k - 1 - i))) % 256)

/-- Big-endian byte composition. -/
def bytesToNatBE (l : List Nat) : Nat := l.foldl (fun a b => a * 256 + b) 0

/-- Split a list into chunks of `k`, with explicit fuel for termination. -/
def chunksAux : Nat → Nat → List Nat → List (List Nat)
  | 0, _, _ => []
  | _ + 1, _, [] => []
  | fuel + 1, k, l => l.take k :: chunksAux fuel k (l.drop k)

/-- Split a list into chunks of `k` (last chunk possibly short). -/
def chunksOf (k : Nat) (l : List Nat) : List (List Nat) := chunksAux l.length k l

/-- Every element of the list is a byte value. -/
def IsBytes (l : List Nat) : Prop := ∀ b ∈ l, b < 256

instance decidableIsBytes (l : List Nat) : Decidable (IsBytes l) :=
  inferInstanceAs (Decidable (∀ b ∈ l, b < 256))

/-! ## SHA-256 (the hash fixed by both runtimes' PBKDF2 parameters) -/
/-- SHA-256 round constants. -/
def shaK : List Nat :=
  [1116352408, 1899447441, 3049323471, 3921009573, 961987163, 1508970993,
   2453635748, 2870763221, 3624381080, 310598401, 607225278, 1426881987,
   1925078388, 2162078206, 2614888103, 3248222580, 3835390401, 4022224774,
   264347078, 604807628, 770255983, 1249150122, 1555081692, 1996064986,
   2554220882, 2821834349, 2952996808, 3210313671, 3336571891, 3584528711,
   113926993, 338241895, 666307205, 773529912, 1294757372, 1396182291,
   1695183700, 1986661051, 2177026350, 2456956037, 2730485921, 2820302411,
   3259730800, 3345764771, 3516065817, 3600352804, 4094571909, 275423344,
   430227734, 506948616, 659060556, 883997877, 958139571, 1322822218,
   1537002063, 1747873779, 1955562222, 2024104815, 2227730452, 2361852424,
   2428436474, 2756734187, 3204031479, 3329325298]

/-- SHA-256 initial hash state. -/
def shaH0 : List Nat :=
  [1779033703, 3144134277, 1013904242, 2773480762,
   1359893119, 2600822924, 528734635, 1541459225]

/-- Message-schedule sigma functions. -/
def smallSigma0 (x : Nat) : Nat := rotr32 7 x ^^^ rotr32 18 x ^^^ (x >>> 3)

/-- Message-schedule sigma functions. -/
def smallSigma1 (x : Nat) : Nat := rotr32 17 x ^^^ rotr32 19 x ^^^ (x >>> 10)

/-- Compression sigma functions. -/
def bigSigma0 (x : Nat) : Nat := rotr32 2 x ^^^ rotr32 13 x ^^^ rotr32 22 x

/-- Compression sigma functions. -/
def bigSigma1 (x : Nat) : Nat := rotr32 6 x ^^^ rotr32 11 x ^^^ rotr32 25 x

/-- Choice function; complement taken inside 32 bits. -/
def chFn (x y z : Nat) : Nat := (x &&& y) ^^^ ((x ^^^ 0xffffffff) &&& z)

/-- Majority function. -/
def majFn (x y z : Nat) : Nat := (x &&& y) ^^^ (x &&& z) ^^^ (y &&& z)

/-- Extend the 16 block words to the 64-word schedule. -/
def shaSchedule (ws : List Nat) : List Nat :=
  (List.range 48).foldl
    (fun acc _ =>
      acc ++ [w32 (smallSigma1 (acc.getD (acc.length - 2) 0)
        + acc.getD (acc.length - 7) 0
        + smallSigma0 (acc.getD (acc.length - 15) 0)
        + acc.getD (acc.length - 16) 0)])
    ws

/-- One SHA-256 compression round over the eight-word state. -/
def shaRound (st : List Nat) (kw : Nat × Nat) : List Nat :=
  match st with
  | [a, b, c, d, e, f, g, h] =>
    let t1 := w32 (h + bigSigma1 e + chFn e f g + kw.1 + kw.2)
    let t2 := w32 (bigSigma0 a + majFn a b c)
    [w32 (t1 + t2), a, b, c, w32 (d + t1), e, f, g]
  | other => other

/-- Compress one 64-byte block into the running hash state. -/
def shaCompress (h : List Nat) (block : List Nat) : List Nat :=
  let ws := shaSchedule ((chunksOf 4 block).map bytesToNatBE)
  let st := (shaK.zip ws).foldl shaRound h
  (h.zip st).map (fun p => w32 (p.1 + p.2))

/-- SHA-256 over a byte list, producing the 32 digest bytes. -/
def sha256 (msg : List Nat) : List Nat :=
  let padded := msg ++ 0x80 :: List.replicate ((119 - msg.length % 64) % 64) 0
    ++ natToBytesBE 8 (8 * msg.length)
  ((chunksOf 64 padded).foldl shaCompress shaH0).foldr
    (fun wd acc => natToBytesBE 4 wd ++ acc) []

/-! ## HMAC-SHA-256 and PBKDF2 (the fixed KDF in `crypto.js` and the Node
client: SHA-256, 100000 iterations, 256-bit key) -/
/-- HMAC-SHA-256. -/
def hmacSha256 (key msg : List Nat) : List Nat :=
  let k0 := if 64 < key.length then sha256 key else key
  let kp := k0 ++ List.replicate (64 - k0.length) 0
  sha256 ((kp.map (fun b => b ^^^ 0x5c)) ++ sha256 ((kp.map (fun b => b ^^^ 0x36)) ++ msg))

/-- Iterate HMAC and xor-accumulate, as PBKDF2's inner loop does. -/
def pbkdf2Iter (pass : List Nat) : Nat → List Nat → List Nat → List Nat
  | 0, _, acc => acc
  | c + 1, u, acc =>
    let u' := hmacSha256 pass u
    pbkdf2Iter pass c u' (List.zipWith (· ^^^ ·) acc u')

/-- PBKDF2-HMAC-SHA-256 with `iter` iterations producing `dkLen` bytes. -/
def pbkdf2Sha256 (pass salt : List Nat) (iter dkLen : Nat) : List Nat :=
  (((List.range ((dkLen + 31) / 32)).map (fun i =>
    let u1 := hmacSha256 pass (salt ++ natToBytesBE 4 (i + 1))
    pbkdf2Iter pass (iter - 1) u1 u1)).flatten).take dkLen

/-! ## AES-256 block cipher -/
/-- Multiply by x in GF(2^8), reducing by the AES polynomial. -/
def xtime (b : Nat) : Nat :=
  if b < 128 then (b <<< 1) % 256 else ((b <<< 1) ^^^ 0x1b) % 256

/-- Fueled GF(2^8) multiplication accumulator. -/
def gmulAux : Nat → Nat → Nat → Nat → Nat
  | 0, _, _, acc => acc
  | f + 1, a, b, acc =>
    gmulAux f (xtime a) (b >>> 1) (if b % 2 = 1 then acc ^^^ a else acc)

/-- GF(2^8) multiplication. -/
def gmul (a b : Nat) : Nat := gmulAux 8 (a % 256) b 0

/-- Fueled GF(2^8) exponentiation accumulator. -/
def gpowAux : Nat → Nat → Nat → Nat
  | 0, _, acc => acc
  | n + 1, a, acc => gpowAux n a (gmul acc a)

/-- GF(2^8) multiplicative inverse (zero maps to zero): `b ^ 254`. -/
def ginv (b : Nat) : Nat := if b % 256 = 0 then 0 else gpowAux 254 (b % 256) 1

/-- Rotate a byte left by `r`. -/
def rotl8 (r x : Nat) : Nat := ((x <<< r) ||| (x >>> (8 - r))) % 256

/-- AES S-box: affine transform of the GF(2^8) inverse. -/
def sbox (b : Nat) : Nat :=
  let i := ginv b
  (i ^^^ rotl8 1 i ^^^ rotl8 2 i ^^^ rotl8 3 i ^^^ rotl8 4 i ^^^ 0x63) % 256

/-- AES round constants as bytes. -/
def rconAux : Nat → Nat
  | 0 => 1
  | n + 1 => xtime (rconAux n)

/-- Apply the S-box to each byte of a word. -/
def subWord (w : List Nat) : List Nat := w.map sbox

/-- Rotate a four-byte word left by one byte. -/
def rotWord (w : List Nat) : List Nat := w.drop 1 ++ w.take 1

/-- Byte-wise xor of two words. -/
def xorWord (a b : List Nat) : List Nat := List.zipWith (· ^^^ ·) a b

/-- AES-256 key expansion: 60 four-byte words, flattened to 240 bytes. -/
def aesExpandKey (key : List Nat) : List Nat :=
  ((List.range 52).foldl
    (fun ws i0 =>
      let i := i0 + 8
      let prev := ws.getD (i - 1) []
      let temp :=
        if i % 8 = 0 then
          xorWord (subWord (rotWord prev)) [rconAux (i / 8 - 1), 0, 0, 0]
        else if i % 8 = 4 then subWord prev
        else prev
      ws ++ [xorWord (ws.getD (i - 8) []) temp])
    (chunksOf 4 key)).flatten

/-- ShiftRows on the column-major 16-byte state. -/
def shiftRows (st : List Nat) : List Nat :=
  (List.range 16).map (fun i => st.getD ((i % 4) + 4 * (((i / 4) + (i % 4)) % 4)) 0)

/-- MixColumns on one four-byte column. -/
def mixColumn (col : List Nat) : List Nat :=
  match col with
  | [a, b, c, d] =>
    [gmul 2 a ^^^ gmul 3 b ^^^ c ^^^ d,
     a ^^^ gmul 2 b ^^^ gmul 3 c ^^^ d,
     a ^^^ b ^^^ gmul 2 c ^^^ gmul 3 d,
     gmul 3 a ^^^ b ^^^ c ^^^ gmul 2 d]
  | other => other

/-- MixColumns over the whole state. -/
def mixColumns (st : List Nat) : List Nat := ((chunksOf 4 st).map mixColumn).flatten

/-- AES-256 block encryption: 14 rounds over a 16-byte block. -/
def aesEncryptBlock (key block : List Nat) : List Nat :=
  let xk := aesExpandKey key
  let rk := fun r => (xk.drop (16 * r)).take 16
  let st0 := List.zipWith (· ^^^ ·) block (rk 0)
  let stN := (List.range 13).foldl
    (fun st r => List.zipWith (· ^^^ ·) (mixColumns (shiftRows (st.map sbox))) (rk (r + 1)))
    st0
  List.zipWith (· ^^^ ·) (shiftRows (stN.map sbox)) (rk 14)

/-- The 16 bytes of an AES output block, by position (AES blocks are
always 16 bytes; indexing by position keeps that length explicit). -/
def aesBlock16 (key block : List Nat) : List Nat :=
  (List.range 16).map (fun i => (aesEncryptBlock key block).getD i 0)

/-! ## AES-GCM (the authenticated mode both runtimes fix, 96-bit IV,
128-bit tag appended to the ciphertext) -/
/-- GF(2^128) multiplication in GCM's reflected representation. -/
def gf128Mul (x y : Nat) : Nat :=
  ((List.range 128).foldl
    (fun zv i =>
      let z' := if (x >>> (127 - i)) % 2 = 1 then zv.1 ^^^ zv.2 else zv.1
      let v' := if zv.2 % 2 = 1
        then (zv.2 >>> 1) ^^^ 0xe1000000000000000000000000000000
        else zv.2 >>> 1
      (z', v'))
    (0, y)).1

/-- GHASH over a list of 128-bit blocks. -/
def ghash (h : Nat) (blocks : List Nat) : Nat :=
  blocks.foldl (fun y x => gf128Mul (y ^^^ x) h) 0

/-- Data as zero-padded 128-bit blocks. -/
def gcmPadBlocks (data : List Nat) : List Nat :=
  (chunksOf 16 data).map (fun c => bytesToNatBE (c ++ List.replicate (16 - c.length) 0))

/-- Increment the low 32 bits of a counter block. -/
def inc32 (b : List Nat) : List Nat :=
  b.take 12 ++ natToBytesBE 4 ((bytesToNatBE (b.drop 12) + 1) % 4294967296)

/-- Iterated counter increment. -/
def inc32Iter : Nat → List Nat → List Nat
  | 0, b => b
  | n + 1, b => inc32 (inc32Iter n b)

/-- The CTR keystream for `n` bytes starting at counter `inc32 j0`. -/
def gcmKeystream (key j0 : List Nat) (n : Nat) : List Nat :=
  (List.range n).map (fun i => (aesBlock16 key (inc32Iter (i / 16 + 1) j0)).getD (i % 16) 0)

/-- CTR encryption/decryption: xor with the keystream. -/
def gcmCtr (key j0 data : List Nat) : List Nat :=
  List.zipWith (· ^^^ ·) data (gcmKeystream key j0 data.length)

/-- The GCM authentication tag for a ciphertext body (no associated data,
96-bit IV, full 128-bit tag — the parameters both runtimes use). -/
def gcmTag (key iv body : List Nat) : List Nat :=
  let h := bytesToNatBE (aesBlock16 key (List.replicate 16 0))
  let lenBlock := bytesToNatBE (natToBytesBE 8 0 ++ natToBytesBE 8 (8 * body.length))
  let s := ghash h (gcmPadBlocks body ++ [lenBlock])
  List.zipWith (· ^^^ ·) (natToBytesBE 16 s) (aesBlock16 key (iv ++ [0, 0, 0, 1]))

/-- AES-GCM encryption: ciphertext body with the 16-byte tag appended,
exactly the layout `crypto.subtle.encrypt` returns and the Node client
splits apart. -/
def gcmEncrypt (key iv pt : List Nat) : List Nat :=
  let body := gcmCtr key (iv ++ [0, 0, 0, 1]) pt
  body ++ gcmTag key iv body

/-- AES-GCM decryption: split the trailing 16-byte tag, verify it, and only
then return the decrypted body; `none` models the thrown authentication
error (`crypto.subtle.decrypt` rejection / `decipher.final()` throw). -/
def gcmDecrypt (key iv ct : List Nat) : Option (List Nat) :=
  if ct.length < 16 then none
  else
    let body := ct.take (ct.length - 16)
    let tag := ct.drop (ct.length - 16)
    if gcmTag key iv body = tag then some (gcmCtr key (iv ++ [0, 0, 0, 1]) body)
    else none

/-! ## Base64 transport encoding (`bufferToBase64` / `base64ToBuffer` in
`crypto.js`, `Buffer.from(..., 'base64')` in the Node client) -/
/-- The base64 alphabet. -/
def b64Alphabet : List Char :=
  "ABCDEFGHIJKLMNOPQRSTUVWXYZabcdefghijklmnopqrstuvwxyz0123456789+/".data

/-- The base64 digit for a 6-bit value. -/
def b64Char (n : Nat) : Char := b64Alphabet.getD n 'A'

/-- Base64-encode a byte list (`btoa` over the bytes' binary string),
processing three bytes into four digits, padded with `=`. -/
def b64EncodeBytes : List Nat → List Char
  | [] => []
  | [a] => [b64Char (a / 4), b64Char (a % 4 * 16), '=', '=']
  | [a, b] => [b64Char (a / 4), b64Char (a % 4 * 16 + b / 16), b64Char (b % 16 * 4), '=']
  | a :: b :: c :: rest =>
    b64Char (a / 4) :: b64Char (a % 4 * 16 + b / 16) :: b64Char (b % 16 * 4 + c / 64) ::
      b64Char (c % 64) :: b64EncodeBytes rest

/-- The 6-bit value of a base64 digit, `none` for other characters. -/
def b64Val (c : Char) : Option Nat :=
  if 'A' ≤ c ∧ c ≤ 'Z' then some (c.toNat - 65)
  else if 'a' ≤ c ∧ c ≤ 'z' then some (c.toNat - 97 + 26)
  else if '0' ≤ c ∧ c ≤ '9' then some (c.toNat - 48 + 52)
  else if c = '+' then some 62
  else if c = '/' then some 63
  else none

/-- Base64-decode a character list (`atob` / `Buffer.from(s, 'base64')`):
groups of four digits yield three bytes, with `=`-padded final groups. -/
def b64DecodeChars : List Char → Option (List Nat)
  | [] => some []
  | c1 :: c2 :: c3 :: c4 :: rest =>
    match b64Val c1, b64Val c2 with
    | some v1, some v2 =>
      if c3 = '=' then
        if c4 = '=' ∧ rest = [] then some [v1 * 4 + v2 / 16] else none
      else
        match b64Val c3 with
        | some v3 =>
          if c4 = '=' then
            if rest = [] then some [v1 * 4 + v2 / 16, v2 % 16 * 16 + v3 / 4] else none
          else
            match b64Val c4, b64DecodeChars rest with
            | some v4, some bs =>
              some ([v1 * 4 + v2 / 16, v2 % 16 * 16 + v3 / 4, v3 % 4 * 64 + v4] ++ bs)
            | _, _ => none
        | none => none
    | _, _ => none
  | _ => none

/-! ## UTF-8 (`TextEncoder` / `TextDecoder`, `Buffer.toString('utf8')`);
the decoder is modelled strictly, which agrees with the platform decoders
on all well-formed input (the only input the theorems apply it to) -/
/-- UTF-8 encoding of one scalar value. -/
def utf8EncodeChar (c : Char) : List Nat :=
  let n := c.toNat
  if n < 128 then [n]
  else if n < 2048 then [192 + n / 64, 128 + n % 64]
  else if n < 65536 then [224 + n / 4096, 128 + n / 64 % 64, 128 + n % 64]
  else [240 + n / 262144, 128 + n / 4096 % 64, 128 + n / 64 % 64, 128 + n % 64]

/-- UTF-8 encoding of a character list. -/
def utf8EncodeList (cs : List Char) : List Nat := (cs.map utf8EncodeChar).flatten

/-- UTF-8 encoding of a string (`TextEncoder.encode`). -/
def utf8Encode (s : String) : List Nat := utf8EncodeList s.data

/-- Fueled UTF-8 decoder: one unit of fuel per decoded character. -/
def utf8DecodeAux : Nat → List Nat → Option (List Char)
  | _, [] => some []
  | 0, _ :: _ => none
  | fuel + 1, b :: rest =>
    if b < 128 then (utf8DecodeAux fuel rest).map (fun cs => Char.ofNat b :: cs)
    else if b < 194 then none
    else if b < 224 then
      match rest with
      | b2 :: rest2 =>
        if 128 ≤ b2 ∧ b2 < 192 then
          (utf8DecodeAux fuel rest2).map
            (fun cs => Char.ofNat ((b - 192) * 64 + (b2 - 128)) :: cs)
        else none
      | [] => none
    else if b < 240 then
      match rest with
      | b2 :: b3 :: rest2 =>
        if (128 ≤ b2 ∧ b2 < 192) ∧ (128 ≤ b3 ∧ b3 < 192) then
          let n := (b - 224) * 4096 + (b2 - 128) * 64 + (b3 - 128)
          if 2048 ≤ n ∧ ¬(55296 ≤ n ∧ n < 57344) then
            (utf8DecodeAux fuel rest2).map (fun cs => Char.ofNat n :: cs)
          else none
        else none
      | _ => none
    else if b < 245 then
      match rest with
      | b2 :: b3 :: b4 :: rest2 =>
        if (128 ≤ b2 ∧ b2 < 192) ∧ (128 ≤ b3 ∧ b3 < 192) ∧ (128 ≤ b4 ∧ b4 < 192) then
          let n := (b - 240) * 262144 + (b2 - 128) * 4096 + (b3 - 128) * 64 + (b4 - 128)
          if 65536 ≤ n ∧ n < 1114112 then
            (utf8DecodeAux fuel rest2).map (fun cs => Char.ofNat n :: cs)
          else none
        else none
      | _ => none
    else none

/-- UTF-8 decoding of a byte list (`TextDecoder.decode` on valid input). -/
def utf8Decode (bs : List Nat) : Option String :=
  (utf8DecodeAux bs.length bs).map String.mk

/-! ## JSON (`JSON.stringify` / `JSON.parse`, the serialization both
`encryptCookies` and both decrypt paths fix).  Numbers are modelled as
integers: JavaScript numbers are doubles, whose fractional printing is the
one platform aspect outside this embedding; on integer-valued numbers
below `2 ^ 53` (cookie counts, expiry seconds) the model agrees exactly
with `JSON.stringify`.  The parser is strict where `JSON.parse` is strict,
and rejects fractional/exponent forms (unrepresentable in the model). -/
/-- A JSON value. -/
inductive Json where
  | null : Json
  | bool : Bool → Json
  | num : Int → Json
  | str : String → Json
  | arr : List Json → Json
  | obj : List (String × Json) → Json
deriving Repr

/-- Decimal digit character. -/
def digitChar (n : Nat) : Char := Char.ofNat (48 + n % 10)

/-- Lowercase hexadecimal digit character (as `JSON.stringify` emits in
`\u00xx` escapes). -/
def hexDigitChar (n : Nat) : Char :=
  if n % 16 < 10 then Char.ofNat (48 + n % 16) else Char.ofNat (87 + n % 16)

/-- Decimal digits of `n`, most significant first, with fuel. -/
def natDigitsAux : Nat → Nat → List Char
  | 0, _ => []
  | fuel + 1, n =>
    if n < 10 then [digitChar n] else natDigitsAux fuel (n / 10) ++ [digitChar (n % 10)]

/-- Decimal digits of `n`. -/
def natDigits (n : Nat) : List Char := natDigitsAux (n + 1) n

/-- Print an integer the way `JSON.stringify` prints integer-valued
numbers. -/
def printInt : Int → List Char
  | .ofNat n => natDigits n
  | .negSucc m => '-' :: natDigits (m + 1)

/-- Escape one character as `JSON.stringify` does inside string literals. -/
def escapeChar (c : Char) : List Char :=
  if c = '"' then ['\\', '"']
  else if c = '\\' then ['\\', '\\']
  else if c = Char.ofNat 8 then ['\\', 'b']
  else if c = Char.ofNat 9 then ['\\', 't']
  else if c = Char.ofNat 10 then ['\\', 'n']
  else if c = Char.ofNat 12 then ['\\', 'f']
  else if c = Char.ofNat 13 then ['\\', 'r']
  else if c.toNat < 32 then
    ['\\', 'u', '0', '0', hexDigitChar (c.toNat / 16), hexDigitChar (c.toNat % 16)]
  else [c]

/-- Print a JSON string literal. -/
def printStringChars (s : String) : List Char :=
  '"' :: (s.data.map escapeChar).flatten ++ ['"']

mutual

/-- Print a JSON value exactly as `JSON.stringify` (no whitespace,
object members in stored order). -/
def printJson : Json → List Char
  | .null => ['n', 'u', 'l', 'l']
  | .bool false => ['f', 'a', 'l', 's', 'e']
  | .bool true => ['t', 'r', 'u', 'e']
  | .num n => printInt n
  | .str s => printStringChars s
  | .arr l => '[' :: printElems l ++ [']']
  | .obj m => Char.ofNat 123 :: printMembers m ++ [Char.ofNat 125]

/-- Print array elements, comma-separated. -/
def printElems : List Json → List Char
  | [] => []
  | [j] => printJson j
  | j :: k :: rest => printJson j ++ ',' :: printElems (k :: rest)

/-- Print object members, comma-separated. -/
def printMembers : List (String × Json) → List Char
  | [] => []
  | [(k, v)] => printStringChars k ++ ':' :: printJson v
  | (k, v) :: m :: rest =>
    printStringChars k ++ ':' :: printJson v ++ ',' :: printMembers (m :: rest)

end

/-- Skip JSON whitespace. -/
def skipWs : List Char → List Char
  | c :: rest =>
    if c = ' ' ∨ c = Char.ofNat 9 ∨ c = Char.ofNat 10 ∨ c = Char.ofNat 13 then skipWs rest
    else c :: rest
  | [] => []

/-- Accumulate a decimal digit run, returning the value and the unconsumed
tail. -/
def parseDigits : List Char → Nat → Nat × List Char
  | c :: rest, acc =>
    if 48 ≤ c.toNat ∧ c.toNat ≤ 57 then parseDigits rest (acc * 10 + (c.toNat - 48))
    else (acc, c :: rest)
  | [], acc => (acc, [])

/-- Hexadecimal digit value. -/
def hexVal (c : Char) : Option Nat :=
  if 48 ≤ c.toNat ∧ c.toNat ≤ 57 then some (c.toNat - 48)
  else if 97 ≤ c.toNat ∧ c.toNat ≤ 102 then some (c.toNat - 87)
  else if 65 ≤ c.toNat ∧ c.toNat ≤ 70 then some (c.toNat - 55)
  else none

/-- Resolve a single-character escape. -/
def unescapeChar (c : Char) : Option Char :=
  if c = '"' then some '"'
  else if c = '\\' then some '\\'
  else if c = '/' then some '/'
  else if c = 'b' then some (Char.ofNat 8)
  else if c = 't' then some (Char.ofNat 9)
  else if c = 'n' then some (Char.ofNat 10)
  else if c = 'f' then some (Char.ofNat 12)
  else if c = 'r' then some (Char.ofNat 13)
  else none

/-- Parse a JSON string body after the opening quote, returning the
decoded characters and the tail after the closing quote. -/
def parseStringBody : List Char → Option (List Char × List Char)
  | [] => none
  | c :: rest =>
    if c = '"' then some ([], rest)
    else if c = '\\' then
      match rest with
      | [] => none
      | e :: rest2 =>
        if e = 'u' then
          match rest2 with
          | h1 :: h2 :: h3 :: h4 :: rest3 => do
            let v1 ← hexVal h1
            let v2 ← hexVal h2
            let v3 ← hexVal h3
            let v4 ← hexVal h4
            let n := v1 * 4096 + v2 * 256 + v3 * 16 + v4
            if Nat.isValidChar n then
              (parseStringBody rest3).map (fun p => (Char.ofNat n :: p.1, p.2))
            else none
          | _ => none
        else do
          let c2 ← unescapeChar e
          (parseStringBody rest2).map (fun p => (c2 :: p.1, p.2))
    else if c.toNat < 32 then none
    else (parseStringBody rest).map (fun p => (c :: p.1, p.2))

/-- Whether the tail would continue a number with a fractional or exponent
part (unsupported in the integer model). -/
def floatCont : List Char → Bool
  | c :: _ => c == '.' || c == 'e' || c == 'E'
  | [] => false

mutual

/-- Parse one JSON value (fuel bounds the nesting depth). -/
def parseJson : Nat → List Char → Option (Json × List Char)
  | 0, _ => none
  | fuel + 1, s =>
    match skipWs s with
    | [] => none
    | c :: rest =>
      if c = 'n' then
        match rest with
        | 'u' :: 'l' :: 'l' :: r => some (.null, r)
        | _ => none
      else if c = 't' then
        match rest with
        | 'r' :: 'u' :: 'e' :: r => some (.bool true, r)
        | _ => none
      else if c = 'f' then
        match rest with
        | 'a' :: 'l' :: 's' :: 'e' :: r => some (.bool false, r)
        | _ => none
      else if c = '"' then
        (parseStringBody rest).map (fun p => (Json.str (String.mk p.1), p.2))
      else if c = '[' then
        match skipWs rest with
        | c2 :: r2 =>
          if c2 = ']' then some (.arr [], r2)
          else (parseElems fuel (c2 :: r2)).map (fun p => (Json.arr p.1, p.2))
        | [] => (parseElems fuel []).map (fun p => (Json.arr p.1, p.2))
      else if c = Char.ofNat 123 then
        match skipWs rest with
        | c2 :: r2 =>
          if c2 = Char.ofNat 125 then some (.obj [], r2)
          else (parseMembers fuel (c2 :: r2)).map (fun p => (Json.obj p.1, p.2))
        | [] => (parseMembers fuel []).map (fun p => (Json.obj p.1, p.2))
      else if c = '-' then
        match rest with
        | c2 :: r2 =>
          if 48 ≤ c2.toNat ∧ c2.toNat ≤ 57 then
            let p := parseDigits (c2 :: r2) 0
            if floatCont p.2 then none else some (.num (-(p.1 : Int)), p.2)
          else none
        | [] => none
      else if 48 ≤ c.toNat ∧ c.toNat ≤ 57 then
        let p := parseDigits (c :: rest) 0
        if floatCont p.2 then none else some (.num (p.1 : Int), p.2)
      else none

/-- Parse the elements of a non-empty array after the opening bracket. -/
def parseElems : Nat → List Char → Option (List Json × List Char)
  | 0, _ => none
  | fuel + 1, s => do
    let (v, r) ← parseJson fuel s
    match skipWs r with
    | c2 :: r2 =>
      if c2 = ',' then (parseElems fuel r2).map (fun p => (v :: p.1, p.2))
      else if c2 = ']' then some ([v], r2)
      else none
    | [] => none

/-- Parse the members of a non-empty object after the opening brace. -/
def parseMembers : Nat → List Char → Option (List (String × Json) × List Char)
  | 0, _ => none
  | fuel + 1, s =>
    match skipWs s with
    | c :: rest =>
      if c = '"' then do
        let (key, r1) ← parseStringBody rest
        match skipWs r1 with
        | c2 :: r2 =>
          if c2 = ':' then do
            let (v, r3) ← parseJson fuel r2
            match skipWs r3 with
            | c3 :: r4 =>
              if c3 = ',' then
                (parseMembers fuel r4).map (fun p => ((String.mk key, v) :: p.1, p.2))
              else if c3 = Char.ofNat 125 then some ([(String.mk key, v)], r4)
              else none
            | [] => none
          else none
        | [] => none
      else none
    | [] => none

end

/-- Parse a complete JSON document (`JSON.parse`): one value with only
whitespace around it. -/
def jsonParse (s : String) : Option Json :=
  match parseJson (s.data.length + 1) s.data with
  | some (j, rest) => if skipWs rest = [] then some j else none
  | none => none

/-- Stringify a JSON value (`JSON.stringify`). -/
def jsonStringify (j : Json) : String := String.mk (printJson j)

mutual

/-- Fuel needed by `parseJson` to parse this value. -/
def jsonWeight : Json → Nat
  | .null => 1
  | .bool _ => 1
  | .num _ => 1
  | .str _ => 1
  | .arr l => 1 + elemsWeight l
  | .obj m => 1 + membersWeight m

/-- Fuel needed by `parseElems`. -/
def elemsWeight : List Json → Nat
  | [] => 0
  | j :: rest => 1 + jsonWeight j + elemsWeight rest

/-- Fuel needed by `parseMembers`. -/
def membersWeight : List (String × Json) → Nat
  | [] => 0
  | (_, v) :: rest => 1 + jsonWeight v + membersWeight rest

end

/-- The running value accumulated by `parseDigits`. -/
def digitsVal (acc : Nat) (ds : List Char) : Nat :=
  ds.foldl (fun a c => a * 10 + (c.toNat - 48)) acc

/-- The head of the tail does not continue a digit run. -/
def HeadNotDigit : List Char → Prop
  | [] => True
  | c :: _ => ¬(48 ≤ c.toNat ∧ c.toNat ≤ 57)

/-- The first character printed for a value: not whitespace and not a
closing bracket, so the parser's dispatch sees it unchanged. -/
def LeadOk (c : Char) : Prop :=
  ¬(c = ' ' ∨ c = Char.ofNat 9 ∨ c = Char.ofNat 10 ∨ c = Char.ofNat 13) ∧
    c ≠ ']' ∧ c ≠ Char.ofNat 125

/-- The tail after a printed number in a printed document: headed by a
delimiter, never by a digit or a fractional/exponent marker. -/
def NumDelim : List Char → Prop
  | [] => True
  | c :: _ => ¬(48 ≤ c.toNat ∧ c.toNat ≤ 57) ∧ c ≠ '.' ∧ c ≠ 'e' ∧ c ≠ 'E'

/-! ## The crypto.js envelope (`encryptCookies` / `decryptCookies`) and the
Node client's `decrypt` -/
/-- Key derivation as `deriveKey` in `crypto.js` and `deriveKey` in the
Node client fix it: PBKDF2-HMAC-SHA-256, 100000 iterations, 256-bit key,
over the UTF-8 bytes of the passphrase. -/
def deriveKeyBytes (passphrase : String) (salt : List Nat) : List Nat :=
  pbkdf2Sha256 (utf8Encode passphrase) salt 100000 32

/-- The envelope record `encryptCookies` returns: all fields
base64-encoded. -/
structure EncRecord where
  encrypted_data : String
  iv : String
  salt : String
deriving Repr, DecidableEq

/-- Model of `encryptCookies` (crypto.js lines 70-89).  The fresh random
salt (16 bytes) and IV (12 bytes) the source samples with
`crypto.getRandomValues` enter as parameters; the payload is the
JSON value of the cookie array. -/
def encryptCookies (cookieArray : Json) (vaultKey : String) (salt iv : List Nat) : EncRecord :=
  let key := deriveKeyBytes vaultKey salt
  let plaintext := utf8Encode (jsonStringify cookieArray)
  let ciphertext := gcmEncrypt key iv plaintext
  { encrypted_data := String.mk (b64EncodeBytes ciphertext),
    iv := String.mk (b64EncodeBytes iv),
    salt := String.mk (b64EncodeBytes salt) }

/-- The failure classes of the decrypt paths. -/
inductive DecryptError where
  | badEncoding : DecryptError
  | authFailure : DecryptError
  | malformed : DecryptError
deriving Repr, DecidableEq

/-- Model of `decryptCookies` (crypto.js lines 99-113): base64-decode the
envelope, derive the key, authenticated-decrypt (`crypto.subtle.decrypt`
rejects on tag mismatch), UTF-8 decode and `JSON.parse`. -/
def decryptCookies (encryptedData ivB64 saltB64 vaultKey : String) : Except DecryptError Json :=
  match b64DecodeChars saltB64.data, b64DecodeChars ivB64.data,
      b64DecodeChars encryptedData.data with
  | some salt, some iv, some ciphertext =>
    let key := deriveKeyBytes vaultKey salt
    match gcmDecrypt key iv ciphertext with
    | some plaintext =>
      match utf8Decode plaintext with
      | some s =>
        match jsonParse s with
        | some j => .ok j
        | none => .error .malformed
      | none => .error .malformed
    | none => .error .authFailure
  | _, _, _ => .error .badEncoding

/-- Model of the Node client's `decrypt` (cookie-vault.js): decode with
`Buffer.from(..., 'base64')`, split the trailing 16-byte auth tag,
`createDecipheriv('aes-256-gcm')` with `setAuthTag` (so `final()` throws
on tag mismatch), then `JSON.parse` of the UTF-8 plaintext.  The split,
verify and keystream steps are the same AES-GCM computation `gcmDecrypt`
performs. -/
def nodeDecrypt (encryptedData ivB64 saltB64 vaultKey : String) : Except DecryptError Json :=
  match b64DecodeChars saltB64.data, b64DecodeChars ivB64.data,
      b64DecodeChars encryptedData.data with
  | some salt, some iv, some ciphertext =>
    let key := deriveKeyBytes vaultKey salt
    match gcmDecrypt key iv ciphertext with
    | some plaintext =>
      match utf8Decode plaintext with
      | some s =>
        match jsonParse s with
        | some j => .ok j
        | none => .error .malformed
      | none => .error .malformed
    | none => .error .authFailure
  | _, _, _ => .error .badEncoding

/-! ## isAuthCookie and the VaultSync sync engine -/
/-- Whether `hay` starts with `needle`. -/
def listStartsWith : List Char → List Char → Bool
  | _, [] => true
  | [], _ :: _ => false
  | a :: as, b :: bs => a == b && listStartsWith as bs

/-- Whether `needle` occurs inside `hay` (`String.prototype.includes`). -/
def listHasSub : List Char → List Char → Bool
  | [], needle => listStartsWith [] needle
  | h :: t, needle => listStartsWith (h :: t) needle || listHasSub t needle

/-- JavaScript's `a.includes(b)`. -/
def strContains (s sub : String) : Bool := listHasSub s.data sub.data

/-- ASCII lowercasing of one character, as `toLowerCase` acts on the
ASCII range (every pattern the engine compares is ASCII). -/
def charToLower (c : Char) : Char :=
  if 65 ≤ c.toNat ∧ c.toNat ≤ 90 then Char.ofNat (c.toNat + 32) else c

/-- ASCII model of `String.prototype.toLowerCase`. -/
def strToLower (s : String) : String := String.mk (s.data.map charToLower)

/-- A cookie as the extension observes it (`chrome.cookies` fields the
sync path reads).  Expirations are integer seconds (the float fraction of
`expirationDate` is the one platform aspect outside the model). -/
structure Cookie where
  name : String
  value : String
  domain : String
  path : String
  secure : Bool
  httpOnly : Bool
  sameSite : Option String
  expirationDate : Option Int
deriving Repr, DecidableEq

/-- The fixed pattern list of `isAuthCookie` (crypto.js lines 116-128). -/
def authPatterns : List String :=
  ["auth", "session", "token", "login", "user", "csrf", "xsrf",
   "li_at", "c_user", "xs", "fr", "sb", "datr",
   "auth_token", "twid", "ct0",
   "sessionid", "csrftoken",
   "SID", "HSID", "SSID", "APISID", "SAPISID",
   "JSESSIONID", "PHPSESSID", "ASP.NET_SessionId"]

/-- Model of `isAuthCookie`: the cookie's lowercased name contains some
lowercased pattern.  `String.toLower` models `toLowerCase` on the ASCII
range, which covers every pattern. -/
def isAuthCookie (c : Cookie) : Bool :=
  authPatterns.any (fun p => strContains (strToLower c.name) (strToLower p))

/-- JSON encoding of a cookie object (field order as the extension's
cookie objects carry them). -/
def cookieToJson (c : Cookie) : Json :=
  .obj ([("name", .str c.name), ("value", .str c.value), ("domain", .str c.domain),
         ("path", .str c.path), ("secure", .bool c.secure), ("httpOnly", .bool c.httpOnly)]
    ++ (match c.sameSite with | some s => [("sameSite", Json.str s)] | none => [])
    ++ (match c.expirationDate with | some e => [("expirationDate", Json.num e)] | none => []))

/-- JSON encoding of a cookie array, the payload `encryptCookies`
receives. -/
def cookiesJson (cs : List Cookie) : Json := .arr (cs.map cookieToJson)

/-- The settings `VaultSync.getSettings` loads from `chrome.storage`. -/
structure Settings where
  vault_enabled : Bool
  supabase_url : String
  supabase_anon_key : String
  vault_key : String
  sync_mode : String
  selected_domains : List String
  vault_email : String
  vault_password : String
deriving Repr

/-- Cookies grouped by domain: the JavaScript object
`cookiesByDomain` (keys unique, in insertion order). -/
def lookupCookies (m : List (String × List Cookie)) (d : String) : List Cookie :=
  match m.lookup d with
  | some cs => cs
  | none => []

/-- Model of `VaultSync.filterDomains` (vault-sync.js lines 646-670). -/
def filterDomains (cookiesByDomain : List (String × List Cookie)) (s : Settings) :
    List String :=
  let domains := cookiesByDomain.map (·.1)
  if s.sync_mode = "auth_only" then
    domains.filter (fun d => (lookupCookies cookiesByDomain d).any (fun c => isAuthCookie c))
  else if s.sync_mode = "selected_domains" then
    domains.filter (fun d =>
      s.selected_domains.any (fun sel => strContains d sel || strContains sel d))
  else if s.sync_mode = "all" then domains
  else []

/-- The token endpoint's response body. -/
structure TokenResponse where
  access_token : String
  refresh_token : String
  expires_in : Int
  user_id : String
deriving Repr, DecidableEq

/-- A grant request to `/auth/v1/token`. -/
inductive GrantReq where
  | refresh (token : String)
  | password (email pw : String)
deriving Repr, DecidableEq

/-- The three ways a `fetch` can come back: a 2xx with data, a non-2xx
response (`response.ok` false, no exception), or a rejection of the fetch
itself (network error, which throws). -/
inductive FetchOutcome (α : Type) where
  | ok (data : α)
  | httpError (status : Nat) (text : String)
  | netThrow (msg : String)
deriving Repr

/-- The `VaultSync` instance's mutable session fields. -/
structure AuthState where
  accessToken : Option String
  refreshToken : Option String
  userId : Option String
  vaultId : Option String
  tokenExpiresAt : Int
deriving Repr, DecidableEq

/-- The constructor state: all fields null, expiry 0. -/
def initialAuthState : AuthState :=
  { accessToken := none, refreshToken := none, userId := none, vaultId := none,
    tokenExpiresAt := 0 }

/-- JavaScript truthiness of a nullable string field. -/
def truthy : Option String → Bool
  | none => false
  | some s => s != ""

/-- The early-return guard of `authenticate`:
`this.accessToken && Date.now() < this.tokenExpiresAt - 60000`. -/
def tokenStillValid (st : AuthState) (now : Int) : Bool :=
  truthy st.accessToken && decide (now < st.tokenExpiresAt - 60000)

/-- Model of `VaultSync.authenticate` (vault-sync.js lines 554-594).
The transport enters as `T`; the pair returned is (outcome, state after
the call), keeping the state mutations that happen before a throw.
On a non-2xx response the refresh token is cleared and, when the failed
request was the refresh grant, the call retries itself (now taking the
password branch). -/
def authenticate (T : GrantReq → FetchOutcome TokenResponse) (now : Int) (s : Settings)
    (st : AuthState) : Except String Unit × AuthState :=
  if tokenStillValid st now then (.ok (), st)
  else
    match T (if truthy st.refreshToken
        then GrantReq.refresh (st.refreshToken.getD "")
        else GrantReq.password s.vault_email s.vault_password) with
    | .netThrow msg => (.error msg, st)
    | .httpError status text =>
      if h : truthy st.refreshToken then
        authenticate T now s { st with refreshToken := none }
      else
        (.error ("Auth failed: " ++ toString status ++ " " ++ text),
          { st with refreshToken := none })
    | .ok data =>
      (.ok (), { st with
        accessToken := some data.access_token,
        refreshToken := some data.refresh_token,
        userId := some data.user_id,
        tokenExpiresAt := now + data.expires_in * 1000 })
termination_by if truthy st.refreshToken then 1 else 0
decreasing_by
  simp only [h, show truthy (none : Option String) = false from rfl]
  decide

/-- The per-domain outcome of the raw `fetch` POST used for the entry
upsert: accepted (2xx, stored), rejected by the server (non-2xx response,
which `fetch` resolves without throwing and the code never inspects), or
a network failure (the `fetch` promise rejects, which throws). -/
inductive UpsertOutcome where
  | accepted
  | httpRejected (status : Nat) (text : String)
  | netFail (msg : String)
deriving Repr, DecidableEq

/-- The remote endpoint's behavior for one sync run: the token endpoint,
the vault lookup/create, and the per-domain entry upsert.  (The
`sync_log` POST's outcome is not represented: the code awaits it inside
its own try/catch, ignores the response entirely and swallows any
throw — lines 739-760 — so no observable of the model depends on it.) -/
structure Remote where
  auth : GrantReq → FetchOutcome TokenResponse
  vaultQuery : FetchOutcome (List String)
  vaultCreate : FetchOutcome String
  upsert : String → UpsertOutcome

/-- Model of `VaultSync.ensureVault` (vault-sync.js lines 599-641):
return the cached vault id, else authenticate, look the vault up
(`supabaseRequest`, which throws on non-2xx), else create it (raw fetch
with explicit `response.ok` check). -/
def ensureVault (R : Remote) (now : Int) (s : Settings) (st : AuthState) :
    Except String String × AuthState :=
  if truthy st.vaultId then (.ok (st.vaultId.getD ""), st)
  else
    match authenticate R.auth now s st with
    | (.error e, st') => (.error e, st')
    | (.ok (), st1) =>
      match R.vaultQuery with
      | .netThrow msg => (.error msg, st1)
      | .httpError status text =>
        (.error ("Supabase GET cookie_vaults: " ++ toString status ++ " " ++ text), st1)
      | .ok ids =>
        match ids with
        | id :: _ => (.ok id, { st1 with vaultId := some id })
        | [] =>
          match R.vaultCreate with
          | .netThrow msg => (.error msg, st1)
          | .httpError status text =>
            (.error ("Failed to create vault: " ++ toString status ++ " " ++ text), st1)
          | .ok newId => (.ok newId, { st1 with vaultId := some newId })

/-- A `cookie_entries` row (the schema's columns the engine writes). -/
structure CookieEntry where
  vault_id : String
  user_id : String
  domain : String
  encrypted_data : String
  iv : String
  salt : String
  cookie_count : Nat
  has_auth_cookies : Bool
  expires_at : Option Int
  synced_at : Int
deriving Repr

/-- The earliest-expiry computation of the sync loop:
`cookies.filter(c => c.expirationDate).reduce((min, c) => ..., Infinity)`,
with `none` playing `Infinity` (and a final `null` in the row).  JS
truthiness drops cookies whose `expirationDate` is absent or `0`. -/
def earliestExpiry (cookies : List Cookie) : Option Int :=
  (cookies.filter (fun c => match c.expirationDate with
    | some v => v != 0
    | none => false)).foldl
    (fun m c => match m, c.expirationDate with
      | none, some e => some e
      | some v, some e => if e < v then some e else some v
      | m, none => m) none

/-- The entry object the sync loop builds for one domain
(vault-sync.js lines 696-724); `salt`/`iv` are that iteration's fresh
randomness. -/
def mkEntry (vaultId userId domain : String) (cookies : List Cookie)
    (vaultKey : String) (salt iv : List Nat) (now : Int) : CookieEntry :=
  let enc := encryptCookies (cookiesJson cookies) vaultKey salt iv
  { vault_id := vaultId, user_id := userId, domain := domain,
    encrypted_data := enc.encrypted_data, iv := enc.iv, salt := enc.salt,
    cookie_count := cookies.length,
    has_auth_cookies := cookies.any (fun c => isAuthCookie c),
    expires_at := (earliestExpiry cookies).map (· * 1000),
    synced_at := now }

/-- Key equality on the schema's natural key `unique(vault_id, domain)`. -/
def entryKeyMatch (a : CookieEntry) (v d : String) : Bool :=
  a.vault_id == v && a.domain == d

/-- The remote store's upsert semantics: `Prefer: resolution=merge-duplicates`
against `unique(vault_id, domain)` replaces the row with that key, else
inserts. -/
def upsertEntry (store : List CookieEntry) (e : CookieEntry) : List CookieEntry :=
  if store.any (fun x => entryKeyMatch x e.vault_id e.domain) then
    store.map (fun x => if entryKeyMatch x e.vault_id e.domain then e else x)
  else store ++ [e]

/-- The structured value `syncToVault` resolves to: either
`{synced: false, reason}` or `{synced: true, domains, cookies, errors?}`
(`errors := []` standing for the field being absent). -/
inductive SyncResult where
  | notSynced (reason : String)
  | success (domains : Nat) (cookies : Nat) (errors : List (String × String))
deriving Repr, DecidableEq

/-- Model of `VaultSync.syncToVault` (vault-sync.js lines 675-785).
`entropy i` supplies the fresh (salt, iv) pair `crypto.getRandomValues`
samples in iteration `i`.  The result triple is (returned result,
session state after the call, remote `cookie_entries` rows after the
call).  Per domain: the entry is encrypted and POSTed; a network throw
is caught per-domain and recorded; a non-2xx response is not detected
(the raw `fetch` resolves and `response.ok` is never checked), so the
row is not stored remotely yet the cookie count still accumulates; the
outer try/catch converts any authenticate/ensureVault throw into a
structured `{synced: false, reason}` result. -/
def syncToVault (R : Remote) (now : Int) (entropy : Nat → List Nat × List Nat)
    (cookiesByDomain : List (String × List Cookie)) (s : Settings)
    (st0 : AuthState) (store0 : List CookieEntry) :
    SyncResult × AuthState × List CookieEntry :=
  if !s.vault_enabled then (.notSynced "disabled", st0, store0)
  else if s.supabase_url == "" || s.vault_key == "" then
    (.notSynced "not_configured", st0, store0)
  else
    match authenticate R.auth now s st0 with
    | (.error e, st') => (.notSynced e, st', store0)
    | (.ok (), st1) =>
      match ensureVault R now s st1 with
      | (.error e, st2) => (.notSynced e, st2, store0)
      | (.ok vaultId, st2) =>
        let domainsToSync := filterDomains cookiesByDomain s
        if domainsToSync.length == 0 then (.success 0 0 [], st2, store0)
        else
          let final := domainsToSync.foldl (fun acc domain =>
            let cookies := lookupCookies cookiesByDomain domain
            let se := entropy acc.1
            let entry := mkEntry vaultId (st2.userId.getD "") domain cookies
              s.vault_key se.1 se.2 now
            match R.upsert domain with
            | .netFail msg =>
              (acc.1 + 1, acc.2.1, acc.2.2.1 ++ [(domain, msg)], acc.2.2.2)
            | .httpRejected _ _ =>
              (acc.1 + 1, acc.2.1 + cookies.length, acc.2.2.1, acc.2.2.2)
            | .accepted =>
              (acc.1 + 1, acc.2.1 + cookies.length, acc.2.2.1,
                upsertEntry acc.2.2.2 entry))
            ((0, 0, [], store0) : Nat × Nat × List (String × String) × List CookieEntry)
          (.success domainsToSync.length final.2.1 final.2.2.1, st2, final.2.2.2)

/-! ## The Node client's read side (`CookieVault.getCookies`) -/
/-- The columns the read query selects
(`select=encrypted_data,iv,salt,synced_at,domain`). -/
structure VEntry where
  encrypted_data : String
  iv : String
  salt : String
  synced_at : Int
  domain : String
deriving Repr

/-- PostgREST's `domain=ilike.*<d>*` server-side filter: the stored
domain contains `d`, case-insensitively (wildcard characters inside `d`
itself are out of scope; domains are literal). -/
def ilikeContains (hay pat : String) : Bool :=
  listHasSub (strToLower hay).data (strToLower pat).data

/-- One entry's decryption as `getCookies` consumes it: the Node
`decrypt` result is spread into the accumulator, so a non-array payload
throws (modelled as `malformed`). -/
def decryptEntryList (e : VEntry) (vaultKey : String) : Except DecryptError (List Json) :=
  match nodeDecrypt e.encrypted_data e.iv e.salt vaultKey with
  | .ok (Json.arr l) => .ok l
  | .ok _ => .error .malformed
  | .error err => .error err

/-- The age guard of the entry loop: `if (options.maxAgeSeconds)` is JS
truthiness (absent or `0` skips the check), and
`(now - syncedAt) / 1000 > maxAgeSeconds` over exact values is
`now - syncedAt > maxAgeSeconds * 1000`. -/
def entryTooOld (maxAgeSeconds : Option Int) (now syncedAt : Int) : Bool :=
  (match maxAgeSeconds with | some v => v != 0 | none => false)
    && decide (now - syncedAt > (maxAgeSeconds.getD 0) * 1000)

/-- Model of `CookieVault.getCookies` (cookie-vault.js lines 342-369):
query entries whose stored domain ilike-contains the argument, return
`[]` when none match, else decrypt each surviving entry in order and
concatenate, skipping entries older than `maxAgeSeconds`; a decrypt
throw propagates. -/
def getCookies (domain : String) (maxAgeSeconds : Option Int)
    (remoteEntries : List VEntry) (now : Int) (vaultKey : String) :
    Except DecryptError (List Json) :=
  let entries := remoteEntries.filter (fun e => ilikeContains e.domain domain)
  if entries.length == 0 then .ok []
  else
    entries.foldl (fun acc e =>
      match acc with
      | .error err => .error err
      | .ok collected =>
        if entryTooOld maxAgeSeconds now e.synced_at then .ok collected
        else
          match decryptEntryList e vaultKey with
          | .ok cookies => .ok (collected ++ cookies)
          | .error err => .error err) (.ok [])

/-- Modelled from the spec: the claimed read-side semantics of C6 —
"entries whose stored domain matches `domain` by substring containment
in either direction (entry domain contains d, or d contains entry
domain — the same bidirectional semantics as the write-side
`selected_domains` filter)", then the same age filter, decryption and
concatenation.  Only the matching rule differs from `getCookies`. -/
def getCookiesBidirSpec (domain : String) (maxAgeSeconds : Option Int)
    (remoteEntries : List VEntry) (now : Int) (vaultKey : String) :
    Except DecryptError (List Json) :=
  let entries := remoteEntries.filter (fun e =>
    strContains e.domain domain || strContains domain e.domain)
  if entries.length == 0 then .ok []
  else
    entries.foldl (fun acc e =>
      match acc with
      | .error err => .error err
      | .ok collected =>
        if entryTooOld maxAgeSeconds now e.synced_at then .ok collected
        else
          match decryptEntryList e vaultKey with
          | .ok cookies => .ok (collected ++ cookies)
          | .error err => .error err) (.ok [])

/-- Decrypt a list of entries in order and concatenate their cookie
lists; the first decryption failure propagates. -/
def decryptConcat (vk : String) : List VEntry → Except DecryptError (List Json)
  | [] => Except.ok []
  | e :: rest =>
    match decryptEntryList e vk with
    | Except.error err => Except.error err
    | Except.ok l => Except.map (fun ls => l ++ ls) (decryptConcat vk rest)

/-- The amended read-side characterization: one-directional ilike
matching (stored domain contains the query), then the age filter, then
decrypt-and-concatenate in order (first decryption failure propagates). -/
def getCookiesAmendedSpec (domain : String) (maxAgeSeconds : Option Int)
    (remoteEntries : List VEntry) (now : Int) (vaultKey : String) :
    Except DecryptError (List Json) :=
  decryptConcat vaultKey
    ((remoteEntries.filter (fun e => ilikeContains e.domain domain)).filter
      (fun e => !entryTooOld maxAgeSeconds now e.synced_at))

/-! ## Interleaving model of concurrent `authenticate` calls (for the
single-flight claim).  `authenticate` is an async function: between its
synchronous prefix (guard check, request construction, issuing the
fetch) and its response handling, the JavaScript event loop may run
another caller's prefix.  Each segment below is atomic, exactly as the
event loop executes it. -/
/-- Where one caller of `authenticate` stands. -/
inductive CallerPhase where
  | ready
  | awaitingGrant (req : GrantReq)
  | done (failed : Bool)
deriving Repr, DecidableEq

/-- The synchronous prefix of `authenticate` (lines 555-575): read the
shared token state; return if still valid; otherwise build the grant
request from the shared refresh token and issue the fetch, suspending
at the `await`. -/
def authSegment1 (now : Int) (s : Settings) (st : AuthState) : CallerPhase :=
  if tokenStillValid st now then .done false
  else .awaitingGrant (if truthy st.refreshToken
    then GrantReq.refresh (st.refreshToken.getD "")
    else GrantReq.password s.vault_email s.vault_password)

/-- The response-handling segment (lines 577-594): store the tokens on
2xx; on non-2xx clear the refresh token and, if the failed request was
the refresh grant, re-enter `authenticate` (back to `ready`). -/
def authSegment2 (now : Int) (req : GrantReq)
    (response : FetchOutcome TokenResponse) (st : AuthState) : CallerPhase × AuthState :=
  match response with
  | .ok data =>
    (.done false, { st with
      accessToken := some data.access_token,
      refreshToken := some data.refresh_token,
      userId := some data.user_id,
      tokenExpiresAt := now + data.expires_in * 1000 })
  | .httpError _ _ =>
    ((match req with
      | .refresh _ => .ready
      | .password _ _ => .done true), { st with refreshToken := none })
  | .netThrow _ => (.done true, st)

/-- Two concurrent callers over the one shared `VaultSync` instance. -/
structure ConcState where
  shared : AuthState
  caller1 : CallerPhase
  caller2 : CallerPhase
deriving Repr, DecidableEq

/-- How many grant requests are in flight. -/
def grantsInFlight (cs : ConcState) : Nat :=
  (match cs.caller1 with | .awaitingGrant _ => 1 | _ => 0) +
  (match cs.caller2 with | .awaitingGrant _ => 1 | _ => 0)

/-- Caller 1 runs its synchronous prefix. -/
def runSeg1Caller1 (now : Int) (s : Settings) (cs : ConcState) : ConcState :=
  { cs with caller1 := authSegment1 now s cs.shared }

/-- Caller 2 runs its synchronous prefix. -/
def runSeg1Caller2 (now : Int) (s : Settings) (cs : ConcState) : ConcState :=
  { cs with caller2 := authSegment1 now s cs.shared }

/-! ## Claim theorems -/
/-- A sample payload and envelope inputs used by concrete witnesses. -/
def demoPayload : Json :=
  .arr [.obj [("name", .str "sessionid"), ("value", .str "abc"),
              ("domain", .str ".x.com"), ("secure", .bool true)]]

/-- The linkedin.com example cookies of the inclusion-policy test. -/
def liAt : Cookie :=
  { name := "li_at", value := "tok", domain := ".linkedin.com", path := "/",
    secure := true, httpOnly := true, sameSite := some "no_restriction",
    expirationDate := some 1999999999 }

/-- The non-auth companion cookie of the example. -/
def liTheme : Cookie :=
  { name := "li_theme", value := "dark", domain := ".linkedin.com", path := "/",
    secure := false, httpOnly := false, sameSite := none, expirationDate := none }

/-- A token response used by concrete scenarios. -/
def demoToken : TokenResponse :=
  { access_token := "at", refresh_token := "rt", expires_in := 3600, user_id := "u1" }

/-- A fully cooperative remote endpoint. -/
def demoRemote : Remote :=
  { auth := fun _ => .ok demoToken, vaultQuery := .ok ["v1"], vaultCreate := .ok "v1",
    upsert := fun _ => .accepted }

/-- A fixed randomness supply for concrete scenarios. -/
def demoEntropy : Nat → List Nat × List Nat :=
  fun _ => (List.replicate 16 7, List.replicate 12 3)

/-- Enabled, configured settings in `auth_only` mode. -/
def authOnlyDemoSettings : Settings :=
  { vault_enabled := true, supabase_url := "https://x.supabase.co",
    supabase_anon_key := "anon", vault_key := "key", sync_mode := "auth_only",
    selected_domains := [], vault_email := "e@x.com", vault_password := "pw" }

/-- The session state after the demo password grant. -/
def stDemo1 : AuthState :=
  { accessToken := some "at", refreshToken := some "rt", userId := some "u1",
    vaultId := none, tokenExpiresAt := 3600000 }

/-- `stDemo1` with the vault id cached. -/
def stDemo2 : AuthState :=
  { accessToken := some "at", refreshToken := some "rt", userId := some "u1",
    vaultId := some "v1", tokenExpiresAt := 3600000 }

/-- Enabled, configured settings whose `sync_mode` is not a recognized value. -/
def bogusModeSettings : Settings :=
  { authOnlyDemoSettings with sync_mode := "weird_mode" }

/-- A remote whose token endpoint rejects every grant with HTTP 400. -/
def failingRemote : Remote :=
  { auth := fun _ => .httpError 400 "bad", vaultQuery := .ok [],
    vaultCreate := .netThrow "x", upsert := fun _ => .accepted }

/-- A token endpoint that rejects refresh grants but accepts the
password grant. -/
def refreshRejectAuth : GrantReq → FetchOutcome TokenResponse :=
  fun g => match g with
    | GrantReq.refresh _ => .httpError 401 "invalid_grant"
    | GrantReq.password _ _ => .ok demoToken

/-- A session state holding an expired token plus a refresh token. -/
def stWithRefresh : AuthState :=
  { accessToken := none, refreshToken := some "oldrt", userId := none,
    vaultId := none, tokenExpiresAt := 0 }

/-- An envelope over `demoPayload` used by the read-side counterexample. -/
def c6Env : EncRecord :=
  encryptCookies demoPayload "key" (List.replicate 16 7) (List.replicate 12 3)

/-- A remote row whose stored domain is the bare registrable domain
`x.com`, queried below with the longer host `sub.x.com`. -/
def c6Entry : VEntry :=
  { encrypted_data := c6Env.encrypted_data, iv := c6Env.iv, salt := c6Env.salt,
    synced_at := 0, domain := "x.com" }

/-- Settings in `all` mode (every domain included). -/
def allModeSettings : Settings :=
  { authOnlyDemoSettings with sync_mode := "all" }

/-- Domain `a.com`'s cookie. -/
def cA : Cookie :=
  { name := "pref", value := "1", domain := ".a.com", path := "/",
    secure := false, httpOnly := false, sameSite := none, expirationDate := none }

/-- Domain `b.com`'s first cookie. -/
def cB1 : Cookie :=
  { name := "sid", value := "2", domain := ".b.com", path := "/",
    secure := true, httpOnly := true, sameSite := none, expirationDate := none }

/-- Domain `b.com`'s second cookie. -/
def cB2 : Cookie :=
  { name := "theme", value := "3", domain := ".b.com", path := "/",
    secure := false, httpOnly := false, sameSite := none, expirationDate := none }

/-- A remote that accepts every upsert except domain `b.com`, which it
rejects with a non-2xx response (`fetch` resolves, does not throw). -/
def c2Remote : Remote :=
  { auth := fun _ => .ok demoToken, vaultQuery := .ok ["v1"], vaultCreate := .ok "v1",
    upsert := fun d => if d == "b.com" then .httpRejected 409 "conflict" else .accepted }

/-- The schema invariant `unique(vault_id, domain)`: no two rows share
the natural key. -/
def storeKeysDistinct (store : List CookieEntry) : Prop :=
  store.Pairwise (fun a b => ¬(a.vault_id = b.vault_id ∧ a.domain = b.domain))

/-! ## GCM round-trip -/
theorem length_gcmKeystream (key j0 : List Nat) (n : Nat) :
    (gcmKeystream key j0 n).length = n := by
  simp [gcmKeystream]

theorem length_gcmCtr (key j0 data : List Nat) :
    (gcmCtr key j0 data).length = data.length := by
  simp [gcmCtr, length_gcmKeystream]

theorem zipWith_xor_cancel (a b : List Nat) (h : b.length = a.length) :
    List.zipWith (· ^^^ ·) (List.zipWith (· ^^^ ·) a b) b = a := by
  induction a generalizing b with
  | nil => simp
  | cons x xs ih =>
    cases b with
    | nil => simp at h
    | cons y ys =>
      simp only [List.zipWith_cons_cons, List.cons.injEq]
      constructor
      · rw [Nat.xor_assoc, Nat.xor_self, Nat.xor_zero]
      · exact ih ys (by simpa using h)

theorem gcmCtr_gcmCtr (key j0 data : List Nat) :
    gcmCtr key j0 (gcmCtr key j0 data) = data := by
  rw [show gcmCtr key j0 (gcmCtr key j0 data)
      = List.zipWith (· ^^^ ·) (gcmCtr key j0 data)
          (gcmKeystream key j0 (gcmCtr key j0 data).length) from rfl,
    length_gcmCtr]
  exact zipWith_xor_cancel data (gcmKeystream key j0 data.length)
    (length_gcmKeystream key j0 data.length)

theorem length_gcmTag (key iv body : List Nat) : (gcmTag key iv body).length = 16 := by
  simp [gcmTag, aesBlock16, natToBytesBE]

/-- Decrypting what GCM encrypted, under the same key and IV, recovers the
plaintext: the appended tag verifies and the keystream xor cancels. -/
theorem gcmDecrypt_gcmEncrypt (key iv pt : List Nat) :
    gcmDecrypt key iv (gcmEncrypt key iv pt) = some pt := by
  unfold gcmEncrypt gcmDecrypt
  have hlen : (gcmCtr key (iv ++ [0, 0, 0, 1]) pt ++
      gcmTag key iv (gcmCtr key (iv ++ [0, 0, 0, 1]) pt)).length
      = (gcmCtr key (iv ++ [0, 0, 0, 1]) pt).length + 16 := by
    rw [List.length_append, length_gcmTag]
  rw [hlen]
  have h16 : ¬ ((gcmCtr key (iv ++ [0, 0, 0, 1]) pt).length + 16 < 16) := by omega
  rw [if_neg h16]
  have htake : (gcmCtr key (iv ++ [0, 0, 0, 1]) pt ++
      gcmTag key iv (gcmCtr key (iv ++ [0, 0, 0, 1]) pt)).take
        ((gcmCtr key (iv ++ [0, 0, 0, 1]) pt).length + 16 - 16)
      = gcmCtr key (iv ++ [0, 0, 0, 1]) pt := by
    rw [Nat.add_sub_cancel, List.take_left]
  have hdrop : (gcmCtr key (iv ++ [0, 0, 0, 1]) pt ++
      gcmTag key iv (gcmCtr key (iv ++ [0, 0, 0, 1]) pt)).drop
        ((gcmCtr key (iv ++ [0, 0, 0, 1]) pt).length + 16 - 16)
      = gcmTag key iv (gcmCtr key (iv ++ [0, 0, 0, 1]) pt) := by
    rw [Nat.add_sub_cancel, List.drop_left]
  simp [htake, hdrop, gcmCtr_gcmCtr]

/-! ## Byte bounds: every stage of the pipeline produces values below 256 -/
theorem xor_byte_lt {a b : Nat} (ha : a < 256) (hb : b < 256) : a ^^^ b < 256 := by
  have h := Nat.bitwise_lt (f := bne) (n := 8) (by simpa using ha) (by simpa using hb)
  simpa [HXor.hXor, Xor.xor, Nat.xor] using h

theorem getD_prop {α : Type} (P : α → Prop) (l : List α) (d : α) (i : Nat)
    (hd : P d) : (∀ x ∈ l, P x) → P (l.getD i d) := by
  induction l generalizing i with
  | nil => intro _; simpa [List.getD]
  | cons x xs ih =>
    intro hl
    cases i with
    | zero => exact hl x (List.mem_cons_self x xs)
    | succ j => exact ih j (fun y hy => hl y (List.mem_cons_of_mem x hy))

theorem isBytes_nil : IsBytes [] := fun b hb => absurd hb (List.not_mem_nil b)

theorem isBytes_zipWith_xor {a b : List Nat} (ha : IsBytes a) (hb : IsBytes b) :
    IsBytes (List.zipWith (· ^^^ ·) a b) := by
  induction a generalizing b with
  | nil => intro x hx; simp at hx
  | cons x xs ih =>
    cases b with
    | nil => intro y hy; simp at hy
    | cons y ys =>
      intro z hz
      simp only [List.zipWith_cons_cons, List.mem_cons] at hz
      rcases hz with h | h
      · subst h
        exact xor_byte_lt (ha x (by simp)) (hb y (by simp))
      · exact ih (fun u hu => ha u (by simp [hu])) (fun u hu => hb u (by simp [hu])) z h

theorem isBytes_take {l : List Nat} (h : IsBytes l) (n : Nat) : IsBytes (l.take n) :=
  fun b hb => h b (List.take_subset n l hb)

theorem isBytes_drop {l : List Nat} (h : IsBytes l) (n : Nat) : IsBytes (l.drop n) :=
  fun b hb => h b (List.drop_subset n l hb)

theorem isBytes_append {a b : List Nat} (ha : IsBytes a) (hb : IsBytes b) :
    IsBytes (a ++ b) := by
  intro x hx
  rcases List.mem_append.mp hx with h | h
  · exact ha x h
  · exact hb x h

theorem isBytes_natToBytesBE (k n : Nat) : IsBytes (natToBytesBE k n) := by
  intro b hb
  simp only [natToBytesBE, List.mem_map] at hb
  obtain ⟨i, _, rfl⟩ := hb
  exact Nat.mod_lt _ (by omega)

theorem isBytes_chunk {fuel k : Nat} {l : List Nat} (h : IsBytes l) :
    ∀ w ∈ chunksAux fuel k l, IsBytes w := by
  induction fuel generalizing l with
  | zero => intro w hw; simp [chunksAux] at hw
  | succ f ih =>
    intro w hw
    cases l with
    | nil => simp [chunksAux] at hw
    | cons x xs =>
      simp only [chunksAux, List.mem_cons] at hw
      rcases hw with rfl | hw
      · exact isBytes_take h k
      · exact ih (isBytes_drop h k) w hw

theorem isBytes_wordsToBytes (ws : List Nat) :
    IsBytes (ws.foldr (fun wd acc => natToBytesBE 4 wd ++ acc) []) := by
  induction ws with
  | nil => intro b hb; simp at hb
  | cons w rest ih =>
    intro b hb
    simp only [List.foldr_cons] at hb
    rcases List.mem_append.mp hb with h | h
    · exact isBytes_natToBytesBE 4 w b h
    · exact ih b h

theorem isBytes_sha256 (msg : List Nat) : IsBytes (sha256 msg) :=
  isBytes_wordsToBytes _

theorem isBytes_hmacSha256 (key msg : List Nat) : IsBytes (hmacSha256 key msg) :=
  isBytes_sha256 _

theorem isBytes_pbkdf2Iter (pass : List Nat) (c : Nat) (u acc : List Nat)
    (hacc : IsBytes acc) : IsBytes (pbkdf2Iter pass c u acc) := by
  induction c generalizing u acc with
  | zero => exact hacc
  | succ n ih =>
    exact ih _ _ (isBytes_zipWith_xor hacc (isBytes_hmacSha256 _ _))

theorem isBytes_pbkdf2Sha256 (pass salt : List Nat) (iter dkLen : Nat) :
    IsBytes (pbkdf2Sha256 pass salt iter dkLen) := by
  apply isBytes_take
  intro b hb
  rcases List.mem_flatten.mp hb with ⟨blk, hblk, hbmem⟩
  rcases List.mem_map.mp hblk with ⟨i, _, rfl⟩
  exact isBytes_pbkdf2Iter _ _ _ _ (isBytes_hmacSha256 _ _) b hbmem

theorem xtime_lt (b : Nat) : xtime b < 256 := by
  unfold xtime
  split <;> exact Nat.mod_lt _ (by omega)

theorem gmulAux_lt (f : Nat) : ∀ a b acc, a < 256 → acc < 256 → gmulAux f a b acc < 256 := by
  induction f with
  | zero => intro a b acc _ hacc; simpa [gmulAux]
  | succ n ih =>
    intro a b acc ha hacc
    refine ih _ _ _ (xtime_lt a) ?_
    split
    · exact xor_byte_lt hacc ha
    · exact hacc

theorem gmul_lt (a b : Nat) : gmul a b < 256 :=
  gmulAux_lt 8 _ b 0 (Nat.mod_lt _ (by omega)) (by omega)

theorem sbox_lt (b : Nat) : sbox b < 256 := Nat.mod_lt _ (by omega)

theorem rconAux_lt (n : Nat) : rconAux n < 256 := by
  cases n with
  | zero => simp [rconAux]
  | succ m => exact xtime_lt _

theorem isBytes_subWord {w : List Nat} : IsBytes (subWord w) := by
  intro b hb
  rcases List.mem_map.mp hb with ⟨x, _, rfl⟩
  exact sbox_lt x

theorem isBytes_rotWord {w : List Nat} (h : IsBytes w) : IsBytes (rotWord w) :=
  isBytes_append (isBytes_drop h 1) (isBytes_take h 1)

theorem foldl_invariant {α β : Type} (P : α → Prop) (f : α → β → α) (l : List β)
    (init : α) (h0 : P init) (hstep : ∀ a b, P a → P (f a b)) : P (l.foldl f init) := by
  induction l generalizing init with
  | nil => simpa
  | cons x xs ih => exact ih _ (hstep _ _ h0)

theorem isBytes_aesExpandKey {key : List Nat} (h : IsBytes key) :
    IsBytes (aesExpandKey key) := by
  unfold aesExpandKey
  have main : ∀ w ∈ (List.range 52).foldl
      (fun ws i0 =>
        let i := i0 + 8
        let prev := ws.getD (i - 1) []
        let temp :=
          if i % 8 = 0 then
            xorWord (subWord (rotWord prev)) [rconAux (i / 8 - 1), 0, 0, 0]
          else if i % 8 = 4 then subWord prev
          else prev
        ws ++ [xorWord (ws.getD (i - 8) []) temp])
      (chunksOf 4 key), IsBytes w := by
    refine foldl_invariant (fun ws => ∀ w ∈ ws, IsBytes w) _ _ _ (isBytes_chunk h) ?_
    intro ws i0 hws
    intro w hw
    simp only [List.mem_append, List.mem_singleton] at hw
    rcases hw with hw | rfl
    · exact hws w hw
    · have hprev : IsBytes (ws.getD (i0 + 8 - 1) []) :=
        getD_prop IsBytes ws [] _ isBytes_nil hws
      have htemp : IsBytes (if (i0 + 8) % 8 = 0 then
          xorWord (subWord (rotWord (ws.getD (i0 + 8 - 1) [])))
            [rconAux ((i0 + 8) / 8 - 1), 0, 0, 0]
        else if (i0 + 8) % 8 = 4 then subWord (ws.getD (i0 + 8 - 1) [])
        else ws.getD (i0 + 8 - 1) []) := by
        split
        · apply isBytes_zipWith_xor isBytes_subWord
          intro b hb
          simp only [List.mem_cons] at hb
          rcases hb with rfl | rfl | rfl | rfl | hb
          · exact rconAux_lt _
          · omega
          · omega
          · omega
          · simp at hb
        · split
          · exact isBytes_subWord
          · exact hprev
      exact isBytes_zipWith_xor
        (getD_prop IsBytes ws [] _ isBytes_nil hws) htemp
  intro b hb
  rcases List.mem_flatten.mp hb with ⟨w, hw, hbw⟩
  exact main w hw b hbw

theorem isBytes_shiftRows {st : List Nat} (h : IsBytes st) : IsBytes (shiftRows st) := by
  intro b hb
  rcases List.mem_map.mp hb with ⟨i, _, rfl⟩
  exact getD_prop (· < 256) st 0 _ (by omega) h

theorem isBytes_mixColumn {col : List Nat} (h : IsBytes col) : IsBytes (mixColumn col) := by
  rcases col with _ | ⟨a, _ | ⟨b, _ | ⟨c, _ | ⟨d, _ | ⟨e, rest⟩⟩⟩⟩⟩ <;>
    try exact h
  intro x hx
  have ha : a < 256 := h a (by simp)
  have hb : b < 256 := h b (by simp)
  have hc : c < 256 := h c (by simp)
  have hd : d < 256 := h d (by simp)
  simp only [mixColumn, List.mem_cons] at hx
  rcases hx with rfl | rfl | rfl | rfl | hx
  · exact xor_byte_lt (xor_byte_lt (xor_byte_lt (gmul_lt 2 a) (gmul_lt 3 b)) hc) hd
  · exact xor_byte_lt (xor_byte_lt (xor_byte_lt ha (gmul_lt 2 b)) (gmul_lt 3 c)) hd
  · exact xor_byte_lt (xor_byte_lt (xor_byte_lt ha hb) (gmul_lt 2 c)) (gmul_lt 3 d)
  · exact xor_byte_lt (xor_byte_lt (xor_byte_lt (gmul_lt 3 a) hb) hc) (gmul_lt 2 d)
  · simp at hx

theorem isBytes_mixColumns {st : List Nat} (h : IsBytes st) : IsBytes (mixColumns st) := by
  intro b hb
  rcases List.mem_flatten.mp hb with ⟨w, hw, hbw⟩
  rcases List.mem_map.mp hw with ⟨col, hcol, rfl⟩
  exact isBytes_mixColumn (isBytes_chunk h col hcol) b hbw

theorem isBytes_aesEncryptBlock {key block : List Nat} (hk : IsBytes key)
    (hb : IsBytes block) : IsBytes (aesEncryptBlock key block) := by
  unfold aesEncryptBlock
  have hxk : IsBytes (aesExpandKey key) := isBytes_aesExpandKey hk
  have hrk : ∀ r, IsBytes (((aesExpandKey key).drop (16 * r)).take 16) :=
    fun r => isBytes_take (isBytes_drop hxk _) _
  apply isBytes_zipWith_xor
  · apply isBytes_shiftRows
    intro x hx
    rcases List.mem_map.mp hx with ⟨y, _, rfl⟩
    exact sbox_lt y
  · exact hrk 14

theorem isBytes_aesBlock16 {key block : List Nat} : IsBytes key → IsBytes block →
    IsBytes (aesBlock16 key block) := by
  intro hk hb x hx
  rcases List.mem_map.mp hx with ⟨i, _, rfl⟩
  exact getD_prop (· < 256) _ 0 _ (by omega) (isBytes_aesEncryptBlock hk hb)

theorem isBytes_gcmKeystream {key j0 : List Nat} (n : Nat) (hk : IsBytes key)
    (hj : IsBytes j0) : IsBytes (gcmKeystream key j0 n) := by
  have hcb : ∀ m, IsBytes (inc32Iter m j0) := by
    intro m
    induction m with
    | zero => exact hj
    | succ p ih =>
      exact isBytes_append (isBytes_take ih 12) (isBytes_natToBytesBE 4 _)
  intro b hb
  rcases List.mem_map.mp hb with ⟨i, _, rfl⟩
  exact getD_prop (· < 256) _ 0 _ (by omega) (isBytes_aesBlock16 hk (hcb _))

theorem isBytes_gcmEncrypt {key iv pt : List Nat} (hk : IsBytes key) (hiv : IsBytes iv)
    (hpt : IsBytes pt) : IsBytes (gcmEncrypt key iv pt) := by
  have hj0 : IsBytes (iv ++ [0, 0, 0, 1]) := by
    apply isBytes_append hiv
    intro b hb
    simp only [List.mem_cons] at hb
    rcases hb with rfl | rfl | rfl | rfl | hb
    · omega
    · omega
    · omega
    · omega
    · simp at hb
  apply isBytes_append
  · exact isBytes_zipWith_xor hpt (isBytes_gcmKeystream _ hk hj0)
  · exact isBytes_zipWith_xor (isBytes_natToBytesBE 16 _) (isBytes_aesBlock16 hk hj0)

theorem b64Val_b64Char {n : Nat} (h : n < 64) : b64Val (b64Char n) = some n := by
  interval_cases n <;> rfl

theorem b64Char_ne_pad {n : Nat} (h : n < 64) : b64Char n ≠ '=' := by
  interval_cases n <;> decide

/-- Decoding inverts encoding on byte lists. -/
theorem b64Decode_b64Encode (l : List Nat) (h : IsBytes l) :
    b64DecodeChars (b64EncodeBytes l) = some l := by
  induction l using b64EncodeBytes.induct with
  | case1 => rfl
  | case2 a =>
    have ha : a < 256 := h a (by simp)
    have h1 := b64Val_b64Char (show a / 4 < 64 by omega)
    have h2 := b64Val_b64Char (show a % 4 * 16 < 64 by omega)
    rw [b64EncodeBytes]
    simp [b64DecodeChars, h1, h2]
    omega
  | case3 a b =>
    have ha : a < 256 := h a (by simp)
    have hb : b < 256 := h b (by simp)
    have h1 := b64Val_b64Char (show a / 4 < 64 by omega)
    have h2 := b64Val_b64Char (show a % 4 * 16 + b / 16 < 64 by omega)
    have h3 := b64Val_b64Char (show b % 16 * 4 < 64 by omega)
    have hne := b64Char_ne_pad (show b % 16 * 4 < 64 by omega)
    rw [b64EncodeBytes]
    simp [b64DecodeChars, h1, h2, h3, hne]
    omega
  | case4 a b c rest ih =>
    have ha : a < 256 := h a (by simp)
    have hb : b < 256 := h b (by simp)
    have hc : c < 256 := h c (by simp)
    have hrest : IsBytes rest := by
      intro x hx
      exact h x (by simp [hx])
    have h1 := b64Val_b64Char (show a / 4 < 64 by omega)
    have h2 := b64Val_b64Char (show a % 4 * 16 + b / 16 < 64 by omega)
    have h3 := b64Val_b64Char (show b % 16 * 4 + c / 64 < 64 by omega)
    have h4 := b64Val_b64Char (show c % 64 < 64 by omega)
    have hne3 := b64Char_ne_pad (show b % 16 * 4 + c / 64 < 64 by omega)
    have hne4 := b64Char_ne_pad (show c % 64 < 64 by omega)
    rw [b64EncodeBytes]
    simp [b64DecodeChars, h1, h2, h3, h4, hne3, hne4, ih hrest]
    omega

theorem char_toNat_valid (c : Char) :
    c.toNat < 55296 ∨ (57343 < c.toNat ∧ c.toNat < 1114112) := by
  rcases c.valid with h | ⟨h1, h2⟩
  · left
    exact h
  · right
    exact ⟨h1, h2⟩

theorem stringMk_data (s : String) : String.mk s.data = s := by
  cases s
  rfl

theorem isBytes_utf8EncodeChar (c : Char) : IsBytes (utf8EncodeChar c) := by
  have hv : c.toNat < 1114112 := by
    rcases char_toNat_valid c with h | ⟨_, h⟩
    · omega
    · exact h
  intro b hb
  simp only [utf8EncodeChar] at hb
  split at hb <;> [skip; split at hb] <;> [skip; skip; split at hb] <;>
    simp only [List.mem_cons, List.not_mem_nil, or_false] at hb <;> omega

theorem isBytes_utf8EncodeList (cs : List Char) : IsBytes (utf8EncodeList cs) := by
  intro b hb
  rcases List.mem_flatten.mp hb with ⟨w, hw, hbw⟩
  rcases List.mem_map.mp hw with ⟨c, _, rfl⟩
  exact isBytes_utf8EncodeChar c b hbw

theorem utf8EncodeChar_ne_nil (c : Char) : utf8EncodeChar c ≠ [] := by
  simp only [utf8EncodeChar]
  split <;> [skip; split] <;> [skip; skip; split] <;> simp

theorem length_le_utf8EncodeList (cs : List Char) :
    cs.length ≤ (utf8EncodeList cs).length := by
  induction cs with
  | nil => simp [utf8EncodeList]
  | cons c rest ih =>
    have h1 : 1 ≤ (utf8EncodeChar c).length := by
      cases hc : utf8EncodeChar c with
      | nil => exact absurd hc (utf8EncodeChar_ne_nil c)
      | cons x xs => simp
    calc (c :: rest).length = rest.length + 1 := by simp
    _ ≤ (utf8EncodeList rest).length + (utf8EncodeChar c).length := by omega
    _ = (utf8EncodeList (c :: rest)).length := by
        simp [utf8EncodeList]
        omega

theorem utf8DecodeAux_encodeList (cs : List Char) :
    ∀ fuel, cs.length ≤ fuel → ∀ tail,
      utf8DecodeAux fuel (utf8EncodeList cs ++ tail)
        = (utf8DecodeAux (fuel - cs.length) tail).map (cs ++ ·) := by
  induction cs with
  | nil =>
    intro fuel _ tail
    simp [utf8EncodeList]
  | cons c rest ih =>
    intro fuel hfuel tail
    obtain ⟨f, rfl⟩ : ∃ f, fuel = f + 1 := by
      cases fuel with
      | zero => simp at hfuel
      | succ f => exact ⟨f, rfl⟩
    have hrest : rest.length ≤ f := by simp at hfuel; omega
    have hv := char_toNat_valid c
    have hlist : utf8EncodeList (c :: rest) ++ tail
        = utf8EncodeChar c ++ (utf8EncodeList rest ++ tail) := by
      simp [utf8EncodeList]
    have hfl : f + 1 - (rest.length + 1) = f - rest.length := by omega
    rw [hlist]
    by_cases h1 : c.toNat < 128
    · rw [show utf8EncodeChar c = [c.toNat] from by simp [utf8EncodeChar, h1]]
      simp only [List.cons_append, List.nil_append, List.append_eq, utf8DecodeAux, if_pos h1]
      rw [ih f hrest tail]
      simp only [List.length_cons, hfl]
      cases utf8DecodeAux (f - rest.length) tail <;> simp
    · by_cases h2 : c.toNat < 2048
      · rw [show utf8EncodeChar c = [192 + c.toNat / 64, 128 + c.toNat % 64] from by
          simp [utf8EncodeChar, h1, h2]]
        simp only [List.cons_append, List.nil_append, List.append_eq, utf8DecodeAux]
        rw [if_neg (by omega), if_neg (by omega), if_pos (by omega),
          if_pos (show 128 ≤ 128 + c.toNat % 64 ∧ 128 + c.toNat % 64 < 192 by omega)]
        have harith : (192 + c.toNat / 64 - 192) * 64 + (128 + c.toNat % 64 - 128)
            = c.toNat := by omega
        rw [harith, ih f hrest tail]
        simp only [List.length_cons, hfl]
        cases utf8DecodeAux (f - rest.length) tail <;> simp
      · by_cases h3 : c.toNat < 65536
        · rw [show utf8EncodeChar c
              = [224 + c.toNat / 4096, 128 + c.toNat / 64 % 64, 128 + c.toNat % 64] from by
            simp [utf8EncodeChar, h1, h2, h3]]
          simp only [List.cons_append, List.nil_append, List.append_eq, utf8DecodeAux]
          rw [if_neg (by omega), if_neg (by omega), if_neg (by omega), if_pos (by omega),
            if_pos (show (128 ≤ 128 + c.toNat / 64 % 64 ∧ 128 + c.toNat / 64 % 64 < 192)
              ∧ (128 ≤ 128 + c.toNat % 64 ∧ 128 + c.toNat % 64 < 192) by omega)]
          have harith : (224 + c.toNat / 4096 - 224) * 4096
              + (128 + c.toNat / 64 % 64 - 128) * 64 + (128 + c.toNat % 64 - 128)
              = c.toNat := by omega
          simp only [harith]
          rw [if_pos (show 2048 ≤ c.toNat ∧ ¬(55296 ≤ c.toNat ∧ c.toNat < 57344) by omega)]
          rw [ih f hrest tail]
          simp only [List.length_cons, hfl]
          cases utf8DecodeAux (f - rest.length) tail <;> simp
        · rw [show utf8EncodeChar c
              = [240 + c.toNat / 262144, 128 + c.toNat / 4096 % 64,
                 128 + c.toNat / 64 % 64, 128 + c.toNat % 64] from by
            simp [utf8EncodeChar, h1, h2, h3]]
          have hv4 : c.toNat < 1114112 := by omega
          simp only [List.cons_append, List.nil_append, List.append_eq, utf8DecodeAux]
          rw [if_neg (by omega), if_neg (by omega), if_neg (by omega), if_neg (by omega),
            if_pos (by omega),
            if_pos (show (128 ≤ 128 + c.toNat / 4096 % 64 ∧ 128 + c.toNat / 4096 % 64 < 192)
              ∧ (128 ≤ 128 + c.toNat / 64 % 64 ∧ 128 + c.toNat / 64 % 64 < 192)
              ∧ (128 ≤ 128 + c.toNat % 64 ∧ 128 + c.toNat % 64 < 192) by omega)]
          have harith : (240 + c.toNat / 262144 - 240) * 262144
              + (128 + c.toNat / 4096 % 64 - 128) * 4096
              + (128 + c.toNat / 64 % 64 - 128) * 64 + (128 + c.toNat % 64 - 128)
              = c.toNat := by omega
          simp only [harith]
          rw [if_pos (show 65536 ≤ c.toNat ∧ c.toNat < 1114112 by omega)]
          rw [ih f hrest tail]
          simp only [List.length_cons, hfl]
          cases utf8DecodeAux (f - rest.length) tail <;> simp

/-- Decoding inverts encoding on strings. -/
theorem utf8Decode_utf8Encode (s : String) : utf8Decode (utf8Encode s) = some s := by
  unfold utf8Decode utf8Encode
  have h := utf8DecodeAux_encodeList s.data (utf8EncodeList s.data).length
    (length_le_utf8EncodeList s.data) []
  rw [List.append_nil] at h
  rw [h]
  simp [utf8DecodeAux, stringMk_data]

theorem jsonWeight_pos (j : Json) : 1 ≤ jsonWeight j := by
  cases j <;> simp [jsonWeight]

theorem elemsWeight_pos {l : List Json} (h : l ≠ []) : 1 ≤ elemsWeight l := by
  cases l with
  | nil => exact absurd rfl h
  | cons j rest =>
    simp only [elemsWeight]
    omega

theorem membersWeight_pos {m : List (String × Json)} (h : m ≠ []) : 1 ≤ membersWeight m := by
  cases m with
  | nil => exact absurd rfl h
  | cons kv rest =>
    obtain ⟨k, v⟩ := kv
    simp only [membersWeight]
    omega

theorem charToNat_ofNat {m : Nat} (h : m < 55296) : (Char.ofNat m).toNat = m := by
  have hv : m.isValidChar := Or.inl h
  rw [Char.ofNat, dif_pos hv]
  rfl

theorem digitChar_range (n : Nat) : 48 ≤ (digitChar n).toNat ∧ (digitChar n).toNat ≤ 57 := by
  unfold digitChar
  rw [charToNat_ofNat (by omega)]
  omega

theorem natDigitsAux_digits (fuel : Nat) :
    ∀ n, ∀ c ∈ natDigitsAux fuel n, 48 ≤ c.toNat ∧ c.toNat ≤ 57 := by
  induction fuel with
  | zero => intro n c hc; simp [natDigitsAux] at hc
  | succ f ih =>
    intro n c hc
    rw [natDigitsAux] at hc
    split at hc
    · simp only [List.mem_cons, List.not_mem_nil, or_false] at hc
      subst hc
      exact digitChar_range n
    · rcases List.mem_append.mp hc with h | h
      · exact ih _ c h
      · simp only [List.mem_cons, List.not_mem_nil, or_false] at h
        subst h
        exact digitChar_range _

theorem natDigitsAux_ne_nil (fuel n : Nat) : natDigitsAux (fuel + 1) n ≠ [] := by
  rw [natDigitsAux]
  split
  · simp
  · simp

theorem digitsVal_append (acc : Nat) (a b : List Char) :
    digitsVal acc (a ++ b) = digitsVal (digitsVal acc a) b := by
  simp [digitsVal, List.foldl_append]

theorem natDigitsAux_val : ∀ fuel n acc, n < fuel →
    digitsVal acc (natDigitsAux fuel n) = acc * 10 ^ (natDigitsAux fuel n).length + n := by
  intro fuel
  induction fuel with
  | zero => intro n acc h; omega
  | succ f ih =>
    intro n acc h
    rw [natDigitsAux]
    split
    · rename_i h10
      have hd : (digitChar n).toNat - 48 = n := by
        unfold digitChar
        rw [charToNat_ofNat (by omega)]
        omega
      simp [digitsVal, hd]
    · rename_i h10
      rw [digitsVal_append]
      have hrec := ih (n / 10) acc (by omega)
      rw [hrec]
      have hd : (digitChar (n % 10)).toNat - 48 = n % 10 := by
        unfold digitChar
        rw [charToNat_ofNat (by omega)]
        omega
      have hsingle : ∀ x : Nat, digitsVal x [digitChar (n % 10)] = x * 10 + n % 10 := by
        intro x
        simp [digitsVal, hd]
      rw [hsingle, List.length_append]
      simp only [List.length_cons, List.length_nil]
      have hdm : 10 * (n / 10) + n % 10 = n := Nat.div_add_mod n 10
      have expand : (acc * 10 ^ (natDigitsAux f (n / 10)).length + n / 10) * 10 + n % 10
          = acc * (10 ^ (natDigitsAux f (n / 10)).length * 10) + (10 * (n / 10) + n % 10) := by
        ring
      rw [expand, hdm]
      have hlen : (natDigitsAux f (n / 10)).length + (0 + 1)
          = (natDigitsAux f (n / 10)).length + 1 := by omega
      rw [hlen, pow_succ]

theorem natDigits_val (n : Nat) : digitsVal 0 (natDigits n) = n := by
  have h := natDigitsAux_val (n + 1) n 0 (by omega)
  simpa [natDigits] using h

theorem parseDigits_append (ds : List Char) : ∀ acc rest,
    (∀ c ∈ ds, 48 ≤ c.toNat ∧ c.toNat ≤ 57) → HeadNotDigit rest →
    parseDigits (ds ++ rest) acc = (digitsVal acc ds, rest) := by
  induction ds with
  | nil =>
    intro acc rest _ hrest
    cases rest with
    | nil => rfl
    | cons c t =>
      rw [List.nil_append, parseDigits, if_neg hrest]
      rfl
  | cons d ds' ih =>
    intro acc rest hds hrest
    rw [List.cons_append, parseDigits, if_pos (hds d (by simp))]
    exact ih _ rest (fun c hc => hds c (by simp [hc])) hrest

theorem skipWs_cons {c : Char} (l : List Char)
    (h : ¬(c = ' ' ∨ c = Char.ofNat 9 ∨ c = Char.ofNat 10 ∨ c = Char.ofNat 13)) :
    skipWs (c :: l) = c :: l := by
  rw [skipWs, if_neg h]

theorem printInt_head (n : Int) : ∃ c t, printInt n = c :: t ∧ LeadOk c := by
  cases n with
  | ofNat m =>
    cases hm : natDigits m with
    | nil => exact absurd hm (natDigitsAux_ne_nil m m)
    | cons c t =>
      have hr : 48 ≤ c.toNat ∧ c.toNat ≤ 57 :=
        natDigitsAux_digits (m + 1) m c (by rw [show natDigitsAux (m + 1) m = natDigits m from rfl, hm]; simp)
      refine ⟨c, t, hm, ?_, ?_, ?_⟩
      · rintro (rfl | rfl | rfl | rfl) <;> revert hr <;> decide
      · rintro rfl; revert hr; decide
      · rintro rfl; revert hr; decide
  | negSucc m =>
    exact ⟨'-', natDigits (m + 1), rfl, by decide, by decide, by decide⟩

theorem printJson_head (j : Json) : ∃ c t, printJson j = c :: t ∧ LeadOk c := by
  cases j with
  | bool b =>
    cases b with
    | false => exact ⟨'f', _, rfl, by decide, by decide, by decide⟩
    | true => exact ⟨'t', _, rfl, by decide, by decide, by decide⟩
  | null => exact ⟨'n', _, rfl, by decide, by decide, by decide⟩
  | num n =>
    obtain ⟨c, t, heq, hok⟩ := printInt_head n
    exact ⟨c, t, by simp [printJson, heq], hok⟩
  | str s => exact ⟨'"', _, rfl, by decide, by decide, by decide⟩
  | arr l => exact ⟨'[', _, rfl, by decide, by decide, by decide⟩
  | obj m => exact ⟨Char.ofNat 123, _, rfl, by decide, by decide, by decide⟩

theorem printElems_head {l : List Json} (h : l ≠ []) :
    ∃ c t, printElems l = c :: t ∧ LeadOk c := by
  cases l with
  | nil => exact absurd rfl h
  | cons j rest =>
    obtain ⟨c, t, heq, hok⟩ := printJson_head j
    cases rest with
    | nil => exact ⟨c, t, by simp [printElems, heq], hok⟩
    | cons k rest2 =>
      exact ⟨c, t ++ ',' :: printElems (k :: rest2), by simp [printElems, heq], hok⟩

theorem printMembers_head {m : List (String × Json)} (h : m ≠ []) :
    ∃ t, printMembers m = '"' :: t := by
  cases m with
  | nil => exact absurd rfl h
  | cons kv rest =>
    obtain ⟨k, v⟩ := kv
    cases rest with
    | nil =>
      refine ⟨(k.data.map escapeChar).flatten ++ '"' :: ':' :: printJson v, ?_⟩
      simp [printMembers, printStringChars]
    | cons kv2 rest2 =>
      refine ⟨(k.data.map escapeChar).flatten
        ++ '"' :: ':' :: (printJson v ++ ',' :: printMembers (kv2 :: rest2)), ?_⟩
      simp [printMembers, printStringChars]

theorem hexVal_hexDigitChar {k : Nat} (h : k < 16) : hexVal (hexDigitChar k) = some k := by
  interval_cases k <;> decide

/-- Parsing a string body over the escaped printing of `cs` recovers `cs`
and leaves the tail after the closing quote. -/
theorem parseStringBody_escaped (cs : List Char) (rest : List Char) :
    parseStringBody ((cs.map escapeChar).flatten ++ ('"' :: rest)) = some (cs, rest) := by
  induction cs with
  | nil =>
    rw [show (((List.map escapeChar ([] : List Char)).flatten) ++ ('"' :: rest))
        = '"' :: rest from by simp]
    rw [parseStringBody.eq_def]
    simp
  | cons c cs' ih =>
    rw [show (((c :: cs').map escapeChar).flatten ++ ('"' :: rest))
        = escapeChar c ++ ((cs'.map escapeChar).flatten ++ ('"' :: rest)) from by simp]
    by_cases h1 : c = '"'
    · subst h1
      rw [show escapeChar '"' = ['\\', '"'] from by decide]
      simp only [List.cons_append, List.nil_append]
      rw [parseStringBody.eq_def]
      simp [unescapeChar, ih]
    · by_cases h2 : c = '\\'
      · subst h2
        rw [show escapeChar '\\' = ['\\', '\\'] from by decide]
        simp only [List.cons_append, List.nil_append]
        rw [parseStringBody.eq_def]
        simp [unescapeChar, ih]
      · by_cases h3 : c = Char.ofNat 8
        · subst h3
          rw [show escapeChar (Char.ofNat 8) = ['\\', 'b'] from by decide]
          simp only [List.cons_append, List.nil_append]
          rw [parseStringBody.eq_def]
          simp [unescapeChar, ih]
        · by_cases h4 : c = Char.ofNat 9
          · subst h4
            rw [show escapeChar (Char.ofNat 9) = ['\\', 't'] from by decide]
            simp only [List.cons_append, List.nil_append]
            rw [parseStringBody.eq_def]
            simp [unescapeChar, ih]
          · by_cases h5 : c = Char.ofNat 10
            · subst h5
              rw [show escapeChar (Char.ofNat 10) = ['\\', 'n'] from by decide]
              simp only [List.cons_append, List.nil_append]
              rw [parseStringBody.eq_def]
              simp [unescapeChar, ih]
            · by_cases h6 : c = Char.ofNat 12
              · subst h6
                rw [show escapeChar (Char.ofNat 12) = ['\\', 'f'] from by decide]
                simp only [List.cons_append, List.nil_append]
                rw [parseStringBody.eq_def]
                simp [unescapeChar, ih]
              · by_cases h7 : c = Char.ofNat 13
                · subst h7
                  rw [show escapeChar (Char.ofNat 13) = ['\\', 'r'] from by decide]
                  simp only [List.cons_append, List.nil_append]
                  rw [parseStringBody.eq_def]
                  simp [unescapeChar, ih]
                · by_cases h8 : c.toNat < 32
                  · rw [show escapeChar c
                        = ['\\', 'u', '0', '0', hexDigitChar (c.toNat / 16),
                           hexDigitChar (c.toNat % 16)] from by
                      simp [escapeChar, h1, h2, h3, h4, h5, h6, h7, h8]]
                    simp only [List.cons_append, List.nil_append]
                    rw [parseStringBody.eq_def]
                    have hx1 : hexVal (hexDigitChar (c.toNat / 16)) = some (c.toNat / 16) :=
                      hexVal_hexDigitChar (by omega)
                    have hx2 : hexVal (hexDigitChar (c.toNat % 16)) = some (c.toNat % 16) :=
                      hexVal_hexDigitChar (by omega)
                    have hzero : hexVal '0' = some 0 := by decide
                    simp [hzero, hx1, hx2]
                    have hn : c.toNat / 16 * 16 + c.toNat % 16 = c.toNat := by omega
                    rw [hn]
                    exact ⟨Or.inl (by omega), ih, Char.ofNat_toNat c⟩
                  · rw [show escapeChar c = [c] from by
                      simp [escapeChar, h1, h2, h3, h4, h5, h6, h7, h8]]
                    simp only [List.cons_append, List.nil_append]
                    rw [parseStringBody.eq_def]
                    simp [h1, h2, h8, ih]

theorem floatCont_eq_false {l : List Char} (h : NumDelim l) : floatCont l = false := by
  cases l with
  | nil => rfl
  | cons c t =>
    obtain ⟨_, h1, h2, h3⟩ := h
    simp [floatCont]
    exact ⟨⟨h1, h2⟩, h3⟩

theorem headNotDigit_of_numDelim {l : List Char} (h : NumDelim l) : HeadNotDigit l := by
  cases l with
  | nil => trivial
  | cons c t => exact h.1

theorem parseJson_quote (f : Nat) (X : List Char) : parseJson (f + 1) ('"' :: X)
    = (parseStringBody X).map (fun p => (Json.str (String.mk p.1), p.2)) := rfl

theorem parseJson_lbrack (f : Nat) (X : List Char) : parseJson (f + 1) ('[' :: X)
    = (match skipWs X with
       | c2 :: r2 => if c2 = ']' then some (Json.arr [], r2)
                     else (parseElems f (c2 :: r2)).map (fun p => (Json.arr p.1, p.2))
       | [] => (parseElems f []).map (fun p => (Json.arr p.1, p.2))) := rfl

theorem parseJson_lbrace (f : Nat) (X : List Char) : parseJson (f + 1) (Char.ofNat 123 :: X)
    = (match skipWs X with
       | c2 :: r2 => if c2 = Char.ofNat 125 then some (Json.obj [], r2)
                     else (parseMembers f (c2 :: r2)).map (fun p => (Json.obj p.1, p.2))
       | [] => (parseMembers f []).map (fun p => (Json.obj p.1, p.2))) := rfl

theorem parseJson_minus (f : Nat) (X : List Char) : parseJson (f + 1) ('-' :: X)
    = (match X with
       | c2 :: r2 =>
         if 48 ≤ c2.toNat ∧ c2.toNat ≤ 57 then
           if floatCont (parseDigits (c2 :: r2) 0).2 then none
           else some (.num (-((parseDigits (c2 :: r2) 0).1 : Int)), (parseDigits (c2 :: r2) 0).2)
         else none
       | [] => none) := rfl

theorem notWs_of_digit {d : Char} (h : 48 ≤ d.toNat ∧ d.toNat ≤ 57) :
    ¬(d = ' ' ∨ d = Char.ofNat 9 ∨ d = Char.ofNat 10 ∨ d = Char.ofNat 13) := by
  rintro (rfl | rfl | rfl | rfl) <;> revert h <;> decide

theorem parseJson_digit (f : Nat) {d : Char} (X : List Char)
    (h : 48 ≤ d.toNat ∧ d.toNat ≤ 57) :
    parseJson (f + 1) (d :: X)
    = (if floatCont (parseDigits (d :: X) 0).2 then none
       else some (.num ((parseDigits (d :: X) 0).1 : Int), (parseDigits (d :: X) 0).2)) := by
  rw [parseJson.eq_def]
  dsimp only
  rw [skipWs_cons X (notWs_of_digit h)]
  dsimp only
  rw [if_neg (show ¬d = 'n' by intro hh; subst hh; revert h; decide),
    if_neg (show ¬d = 't' by intro hh; subst hh; revert h; decide),
    if_neg (show ¬d = 'f' by intro hh; subst hh; revert h; decide),
    if_neg (show ¬d = '"' by intro hh; subst hh; revert h; decide),
    if_neg (show ¬d = '[' by intro hh; subst hh; revert h; decide),
    if_neg (show ¬d = Char.ofNat 123 by intro hh; subst hh; revert h; decide),
    if_neg (show ¬d = '-' by intro hh; subst hh; revert h; decide),
    if_pos h]

theorem parseElems_succ (f : Nat) (S : List Char) :
    parseElems (f + 1) S
    = (parseJson f S).bind (fun vr =>
        match skipWs vr.2 with
        | c2 :: r2 =>
          if c2 = ',' then (parseElems f r2).map (fun p => (vr.1 :: p.1, p.2))
          else if c2 = ']' then some ([vr.1], r2)
          else none
        | [] => none) := rfl

theorem parseMembers_quote (f : Nat) (X : List Char) :
    parseMembers (f + 1) ('"' :: X)
    = (parseStringBody X).bind (fun kr =>
        match skipWs kr.2 with
        | c2 :: r2 =>
          if c2 = ':' then
            (parseJson f r2).bind (fun vr =>
              match skipWs vr.2 with
              | c3 :: r4 =>
                if c3 = ',' then
                  (parseMembers f r4).map (fun p => ((String.mk kr.1, vr.1) :: p.1, p.2))
                else if c3 = Char.ofNat 125 then some ([(String.mk kr.1, vr.1)], r4)
                else none
              | [] => none)
          else none
        | [] => none) := rfl

theorem jsonRoundtripAux : ∀ fuel,
    (∀ j rest, jsonWeight j ≤ fuel → NumDelim rest →
       parseJson fuel (printJson j ++ rest) = some (j, rest))
  ∧ (∀ l rest, l ≠ [] → elemsWeight l ≤ fuel →
       parseElems fuel (printElems l ++ (']' :: rest)) = some (l, rest))
  ∧ (∀ m rest, m ≠ [] → membersWeight m ≤ fuel →
       parseMembers fuel (printMembers m ++ (Char.ofNat 125 :: rest)) = some (m, rest)) := by
  intro fuel
  induction fuel with
  | zero =>
    refine ⟨fun j rest hw _ => absurd hw (by have := jsonWeight_pos j; omega),
      fun l rest hne hw => absurd hw (by have := elemsWeight_pos hne; omega),
      fun m rest hne hw => absurd hw (by have := membersWeight_pos hne; omega)⟩
  | succ f ih =>
    obtain ⟨ihJ, ihE, ihM⟩ := ih
    refine ⟨?_, ?_, ?_⟩
    · intro j rest hw hnd
      cases j with
      | null => rfl
      | bool b => cases b <;> rfl
      | num n =>
        cases n with
        | ofNat m =>
          obtain ⟨d, t, heq⟩ : ∃ d t, natDigits m = d :: t := by
            cases hm : natDigits m with
            | nil => exact absurd hm (natDigitsAux_ne_nil m m)
            | cons d t => exact ⟨d, t, rfl⟩
          have hdig : ∀ c ∈ natDigits m, 48 ≤ c.toNat ∧ c.toNat ≤ 57 :=
            fun c hc => natDigitsAux_digits (m + 1) m c hc
          have hd := hdig d (by rw [heq]; simp)
          rw [show printJson (.num (Int.ofNat m)) ++ rest = d :: (t ++ rest) from by
            simp [printJson, printInt, heq]]
          rw [parseJson_digit f (t ++ rest) hd]
          have hpd : parseDigits (d :: (t ++ rest)) 0 = (digitsVal 0 (natDigits m), rest) := by
            rw [show d :: (t ++ rest) = natDigits m ++ rest from by simp [heq]]
            exact parseDigits_append _ 0 rest hdig (headNotDigit_of_numDelim hnd)
          rw [hpd, natDigits_val, floatCont_eq_false hnd]
          simp
        | negSucc m =>
          obtain ⟨d, t, heq⟩ : ∃ d t, natDigits (m + 1) = d :: t := by
            cases hm : natDigits (m + 1) with
            | nil => exact absurd hm (natDigitsAux_ne_nil (m + 1) (m + 1))
            | cons d t => exact ⟨d, t, rfl⟩
          have hdig : ∀ c ∈ natDigits (m + 1), 48 ≤ c.toNat ∧ c.toNat ≤ 57 :=
            fun c hc => natDigitsAux_digits (m + 2) (m + 1) c hc
          have hd := hdig d (by rw [heq]; simp)
          rw [show printJson (.num (Int.negSucc m)) ++ rest
              = '-' :: (natDigits (m + 1) ++ rest) from by simp [printJson, printInt]]
          rw [parseJson_minus]
          rw [show natDigits (m + 1) ++ rest = d :: (t ++ rest) from by simp [heq]]
          dsimp only
          rw [if_pos hd]
          have hpd : parseDigits (d :: (t ++ rest)) 0 = (m + 1, rest) := by
            rw [show d :: (t ++ rest) = natDigits (m + 1) ++ rest from by simp [heq]]
            rw [parseDigits_append _ 0 rest hdig (headNotDigit_of_numDelim hnd)]
            rw [natDigits_val]
          rw [hpd, floatCont_eq_false hnd]
          simp [Int.negSucc_eq]
      | str s =>
        rw [show printJson (.str s) ++ rest
            = '"' :: ((s.data.map escapeChar).flatten ++ ('"' :: rest)) from by
          simp [printJson, printStringChars]]
        rw [parseJson_quote, parseStringBody_escaped]
        simp [stringMk_data]
      | arr l =>
        cases l with
        | nil => rfl
        | cons x xs =>
          obtain ⟨c, t, heq, hok⟩ := printElems_head (show x :: xs ≠ [] from by simp)
          have hwe : elemsWeight (x :: xs) ≤ f := by
            simp only [jsonWeight] at hw
            omega
          rw [show printJson (.arr (x :: xs)) ++ rest
              = '[' :: (printElems (x :: xs) ++ (']' :: rest)) from by simp [printJson]]
          rw [parseJson_lbrack]
          rw [show printElems (x :: xs) ++ (']' :: rest) = c :: (t ++ (']' :: rest)) from by
            simp [heq]]
          rw [skipWs_cons _ hok.1]
          dsimp only
          rw [if_neg hok.2.1]
          rw [show c :: (t ++ (']' :: rest)) = printElems (x :: xs) ++ (']' :: rest) from by
            simp [heq]]
          rw [ihE (x :: xs) rest (by simp) hwe]
          rfl
      | obj mem =>
        cases mem with
        | nil => rfl
        | cons kv ms =>
          obtain ⟨t, heq⟩ := printMembers_head (show kv :: ms ≠ [] from by simp)
          have hwm : membersWeight (kv :: ms) ≤ f := by
            simp only [jsonWeight] at hw
            omega
          rw [show printJson (.obj (kv :: ms)) ++ rest
              = Char.ofNat 123 :: (printMembers (kv :: ms) ++ (Char.ofNat 125 :: rest)) from by
            simp [printJson]]
          rw [parseJson_lbrace]
          rw [show printMembers (kv :: ms) ++ (Char.ofNat 125 :: rest)
              = '"' :: (t ++ (Char.ofNat 125 :: rest)) from by simp [heq]]
          rw [skipWs_cons _ (by decide)]
          dsimp only
          rw [if_neg (show ¬('"' : Char) = Char.ofNat 125 from by decide)]
          rw [show '"' :: (t ++ (Char.ofNat 125 :: rest))
              = printMembers (kv :: ms) ++ (Char.ofNat 125 :: rest) from by simp [heq]]
          rw [ihM (kv :: ms) rest (by simp) hwm]
          rfl
    · intro l rest hne hw
      cases l with
      | nil => exact absurd rfl hne
      | cons x xs =>
        cases xs with
        | nil =>
          have hwx : jsonWeight x ≤ f := by
            simp only [elemsWeight] at hw
            omega
          rw [show printElems [x] ++ (']' :: rest) = printJson x ++ (']' :: rest) from by
            simp [printElems]]
          rw [parseElems_succ]
          rw [ihJ x (']' :: rest) hwx (by exact ⟨by decide, by decide, by decide, by decide⟩)]
          rfl
        | cons y ys =>
          have hwx : jsonWeight x ≤ f := by
            simp only [elemsWeight] at hw
            omega
          have hwrest : elemsWeight (y :: ys) ≤ f := by
            simp only [elemsWeight] at hw ⊢
            omega
          rw [show printElems (x :: y :: ys) ++ (']' :: rest)
              = printJson x ++ (',' :: (printElems (y :: ys) ++ (']' :: rest))) from by
            simp [printElems]]
          rw [parseElems_succ]
          rw [ihJ x (',' :: (printElems (y :: ys) ++ (']' :: rest))) hwx
            (by exact ⟨by decide, by decide, by decide, by decide⟩)]
          show (parseElems f (printElems (y :: ys) ++ (']' :: rest))).map
            (fun p => (x :: p.1, p.2)) = some (x :: y :: ys, rest)
          rw [ihE (y :: ys) rest (by simp) hwrest]
          rfl
    · intro mem rest hne hw
      cases mem with
      | nil => exact absurd rfl hne
      | cons kv ms =>
        obtain ⟨k, v⟩ := kv
        have hwv : jsonWeight v ≤ f := by
          simp only [membersWeight] at hw
          omega
        cases ms with
        | nil =>
          rw [show printMembers [(k, v)] ++ (Char.ofNat 125 :: rest)
              = '"' :: ((k.data.map escapeChar).flatten
                ++ ('"' :: (':' :: (printJson v ++ (Char.ofNat 125 :: rest))))) from by
            simp [printMembers, printStringChars]]
          rw [parseMembers_quote]
          rw [parseStringBody_escaped]
          show (parseJson f (printJson v ++ (Char.ofNat 125 :: rest))).bind (fun vr =>
              match skipWs vr.2 with
              | c3 :: r4 =>
                if c3 = ',' then
                  (parseMembers f r4).map (fun p => ((String.mk k.data, vr.1) :: p.1, p.2))
                else if c3 = Char.ofNat 125 then some ([(String.mk k.data, vr.1)], r4)
                else none
              | [] => none) = some ([(k, v)], rest)
          rw [ihJ v (Char.ofNat 125 :: rest) hwv
            (by exact ⟨by decide, by decide, by decide, by decide⟩)]
          show some ([(String.mk k.data, v)], rest) = some ([(k, v)], rest)
          simp [stringMk_data]
        | cons kv2 ms2 =>
          have hwrest : membersWeight (kv2 :: ms2) ≤ f := by
            simp only [membersWeight] at hw ⊢
            omega
          rw [show printMembers ((k, v) :: kv2 :: ms2) ++ (Char.ofNat 125 :: rest)
              = '"' :: ((k.data.map escapeChar).flatten
                ++ ('"' :: (':' :: (printJson v
                  ++ (',' :: (printMembers (kv2 :: ms2) ++ (Char.ofNat 125 :: rest))))))) from by
            simp [printMembers, printStringChars]]
          rw [parseMembers_quote]
          rw [parseStringBody_escaped]
          show (parseJson f (printJson v
              ++ (',' :: (printMembers (kv2 :: ms2) ++ (Char.ofNat 125 :: rest))))).bind (fun vr =>
              match skipWs vr.2 with
              | c3 :: r4 =>
                if c3 = ',' then
                  (parseMembers f r4).map (fun p => ((String.mk k.data, vr.1) :: p.1, p.2))
                else if c3 = Char.ofNat 125 then some ([(String.mk k.data, vr.1)], r4)
                else none
              | [] => none) = some ((k, v) :: kv2 :: ms2, rest)
          rw [ihJ v (',' :: (printMembers (kv2 :: ms2) ++ (Char.ofNat 125 :: rest))) hwv
            (by exact ⟨by decide, by decide, by decide, by decide⟩)]
          show (parseMembers f (printMembers (kv2 :: ms2) ++ (Char.ofNat 125 :: rest))).map
            (fun p => ((String.mk k.data, v) :: p.1, p.2)) = some ((k, v) :: kv2 :: ms2, rest)
          rw [ihM (kv2 :: ms2) rest (by simp) hwrest]
          simp [stringMk_data]

mutual

theorem jsonWeight_le_print (j : Json) : jsonWeight j ≤ (printJson j).length := by
  cases j with
  | null => simp [jsonWeight, printJson]
  | bool b => cases b <;> simp [jsonWeight, printJson]
  | num n =>
    cases n with
    | ofNat m =>
      have h := natDigitsAux_ne_nil m m
      have : 0 < (natDigits m).length := List.length_pos.mpr h
      simp only [jsonWeight, printJson, printInt]
      omega
    | negSucc m => simp [jsonWeight, printJson, printInt]
  | str s => simp [jsonWeight, printJson, printStringChars]
  | arr l =>
    have h := elemsWeight_le_print l
    simp only [jsonWeight, printJson, List.length_cons, List.length_append]
    omega
  | obj m =>
    have h := membersWeight_le_print m
    simp only [jsonWeight, printJson, List.length_cons, List.length_append]
    omega

theorem elemsWeight_le_print (l : List Json) :
    elemsWeight l ≤ (printElems l).length + 1 := by
  cases l with
  | nil => simp [elemsWeight, printElems]
  | cons j rest =>
    cases rest with
    | nil =>
      have h := jsonWeight_le_print j
      simp only [elemsWeight, printElems]
      omega
    | cons k rest2 =>
      have h1 := jsonWeight_le_print j
      have h2 := elemsWeight_le_print (k :: rest2)
      simp only [elemsWeight] at h2
      simp only [elemsWeight, printElems, List.length_append, List.length_cons]
      omega

theorem membersWeight_le_print (m : List (String × Json)) :
    membersWeight m ≤ (printMembers m).length + 1 := by
  cases m with
  | nil => simp [membersWeight, printMembers]
  | cons kv rest =>
    obtain ⟨k, v⟩ := kv
    cases rest with
    | nil =>
      have h := jsonWeight_le_print v
      simp only [membersWeight, printMembers, List.length_append, List.length_cons]
      omega
    | cons kv2 rest2 =>
      have h1 := jsonWeight_le_print v
      have h2 := membersWeight_le_print (kv2 :: rest2)
      simp only [membersWeight] at h2
      simp only [membersWeight, printMembers, List.length_append, List.length_cons]
      omega

end

/-- Parsing inverts stringification: the JSON layer of the envelope
round-trips. -/
theorem jsonParse_jsonStringify (j : Json) : jsonParse (jsonStringify j) = some j := by
  unfold jsonParse jsonStringify
  have hdata : (String.mk (printJson j)).data = printJson j := rfl
  rw [hdata]
  have hw : jsonWeight j ≤ (printJson j).length + 1 := by
    have := jsonWeight_le_print j
    omega
  have h := (jsonRoundtripAux ((printJson j).length + 1)).1 j [] hw trivial
  rw [List.append_nil] at h
  rw [h]
  simp [skipWs]

theorem isBytes_deriveKeyBytes (passphrase : String) (salt : List Nat) :
    IsBytes (deriveKeyBytes passphrase salt) :=
  isBytes_pbkdf2Sha256 _ _ _ _

/-- Shared round-trip core: the browser decrypt pipeline applied to the
browser encrypt pipeline recovers the payload. -/
theorem decryptCookies_encryptCookies (payload : Json) (key : String) (salt iv : List Nat)
    (hsalt : IsBytes salt) (hiv : IsBytes iv) :
    decryptCookies (encryptCookies payload key salt iv).encrypted_data
      (encryptCookies payload key salt iv).iv
      (encryptCookies payload key salt iv).salt key = .ok payload := by
  have hct : IsBytes (gcmEncrypt (deriveKeyBytes key salt) iv
      (utf8Encode (jsonStringify payload))) :=
    isBytes_gcmEncrypt (isBytes_deriveKeyBytes key salt) hiv (isBytes_utf8EncodeList _)
  unfold decryptCookies encryptCookies
  simp only [b64Decode_b64Encode salt hsalt, b64Decode_b64Encode iv hiv,
    b64Decode_b64Encode _ hct, gcmDecrypt_gcmEncrypt, utf8Decode_utf8Encode,
    jsonParse_jsonStringify]

/-- Shared round-trip core, Node side: the Node client's decrypt applied
to the browser extension's encrypt output recovers the payload — the
cross-runtime compatibility the fixed parameter tuple provides. -/
theorem nodeDecrypt_encryptCookies (payload : Json) (key : String) (salt iv : List Nat)
    (hsalt : IsBytes salt) (hiv : IsBytes iv) :
    nodeDecrypt (encryptCookies payload key salt iv).encrypted_data
      (encryptCookies payload key salt iv).iv
      (encryptCookies payload key salt iv).salt key = .ok payload := by
  have hct : IsBytes (gcmEncrypt (deriveKeyBytes key salt) iv
      (utf8Encode (jsonStringify payload))) :=
    isBytes_gcmEncrypt (isBytes_deriveKeyBytes key salt) hiv (isBytes_utf8EncodeList _)
  unfold nodeDecrypt encryptCookies
  simp only [b64Decode_b64Encode salt hsalt, b64Decode_b64Encode iv hiv,
    b64Decode_b64Encode _ hct, gcmDecrypt_gcmEncrypt, utf8Decode_utf8Encode,
    jsonParse_jsonStringify]

/-- C1: for every JSON-serializable cookie list `P` and every passphrase
`K`, decrypting the envelope produced by `encryptCookies` with the same
passphrase returns `P` — both through the browser pipeline
(`decryptCookies`) and through the Node client's `decrypt`
(cross-runtime), since both fix the same parameter tuple
(PBKDF2-SHA-256, 100000 iterations, 256-bit key, 96-bit IV = 12 bytes,
128-bit salt = 16 bytes, AES-GCM). -/
theorem c1_roundtrip (payload : Json) (passphrase : String) (salt iv : List Nat)
    (hs : IsBytes salt) (hsl : salt.length = 16)
    (hi : IsBytes iv) (hil : iv.length = 12) :
    decryptCookies (encryptCookies payload passphrase salt iv).encrypted_data
      (encryptCookies payload passphrase salt iv).iv
      (encryptCookies payload passphrase salt iv).salt passphrase = .ok payload
    ∧ nodeDecrypt (encryptCookies payload passphrase salt iv).encrypted_data
      (encryptCookies payload passphrase salt iv).iv
      (encryptCookies payload passphrase salt iv).salt passphrase = .ok payload :=
  ⟨decryptCookies_encryptCookies payload passphrase salt iv hs hi,
   nodeDecrypt_encryptCookies payload passphrase salt iv hs hi⟩

/-- Witness for C1 at a concrete payload, passphrase, salt and IV. -/
theorem c1_roundtrip_witness :
    (IsBytes (List.replicate 16 7) ∧ (List.replicate 16 7 : List Nat).length = 16
      ∧ IsBytes (List.replicate 12 3) ∧ (List.replicate 12 3 : List Nat).length = 12)
    ∧ (decryptCookies
        (encryptCookies demoPayload "hunter2" (List.replicate 16 7)
          (List.replicate 12 3)).encrypted_data
        (encryptCookies demoPayload "hunter2" (List.replicate 16 7)
          (List.replicate 12 3)).iv
        (encryptCookies demoPayload "hunter2" (List.replicate 16 7)
          (List.replicate 12 3)).salt "hunter2" = .ok demoPayload
      ∧ nodeDecrypt
        (encryptCookies demoPayload "hunter2" (List.replicate 16 7)
          (List.replicate 12 3)).encrypted_data
        (encryptCookies demoPayload "hunter2" (List.replicate 16 7)
          (List.replicate 12 3)).iv
        (encryptCookies demoPayload "hunter2" (List.replicate 16 7)
          (List.replicate 12 3)).salt "hunter2" = .ok demoPayload) :=
  ⟨⟨by decide, by decide, by decide, by decide⟩,
   c1_roundtrip demoPayload "hunter2" (List.replicate 16 7) (List.replicate 12 3)
     (by decide) (by decide) (by decide) (by decide)⟩

/-- Evaluation of `authenticate` from the fresh state against the
cooperative remote: the password grant succeeds. -/
theorem authenticate_demo0 :
    authenticate demoRemote.auth 0 authOnlyDemoSettings initialAuthState
      = (.ok (), stDemo1) := by
  rw [authenticate.eq_def]; rfl

/-- With a live token, `authenticate` returns early without touching state. -/
theorem authenticate_demo1 :
    authenticate demoRemote.auth 0 authOnlyDemoSettings stDemo1 = (.ok (), stDemo1) := by
  rw [authenticate.eq_def]; rfl

/-- `ensureVault` against the cooperative remote finds vault `v1`. -/
theorem ensureVault_demo :
    ensureVault demoRemote 0 authOnlyDemoSettings stDemo1 = (.ok "v1", stDemo2) := by
  unfold ensureVault
  rw [authenticate_demo1]
  rfl

/-- C3: under `sync_mode = 'auth_only'`, `filterDomains` includes a domain
iff some cookie of that domain has a name whose lowercase form contains
one of the fixed auth patterns; inclusion is per-domain (the linkedin.com
example stores one entry holding both `li_at` and `li_theme`); under
`'selected_domains'` with an empty configured list, zero domains are
included. -/
theorem c3_auth_only_inclusion (m : List (String × List Cookie)) (s : Settings) (d : String) :
    (s.sync_mode = "auth_only" →
      (d ∈ filterDomains m s ↔ d ∈ m.map (·.1)
        ∧ (lookupCookies m d).any (fun c => isAuthCookie c) = true))
  ∧ (∀ c : Cookie, isAuthCookie c = true ↔
      ∃ p ∈ authPatterns, strContains (strToLower c.name) (strToLower p) = true)
  ∧ (s.sync_mode = "selected_domains" → s.selected_domains = [] → filterDomains m s = [])
  ∧ (filterDomains [("linkedin.com", [liAt, liTheme])] authOnlyDemoSettings
      = ["linkedin.com"]
    ∧ (syncToVault demoRemote 0 demoEntropy [("linkedin.com", [liAt, liTheme])]
        authOnlyDemoSettings initialAuthState []).2.2
      = [mkEntry "v1" "u1" "linkedin.com" [liAt, liTheme] "key"
          (List.replicate 16 7) (List.replicate 12 3) 0]) := by
  refine ⟨?_, ?_, ?_, ?_, ?_⟩
  · intro hmode
    unfold filterDomains
    rw [if_pos hmode]
    simp [List.mem_filter]
  · intro c
    simp [isAuthCookie, List.any_eq_true]
  · intro h1 h2
    unfold filterDomains
    rw [if_neg (by rw [h1]; decide), if_pos h1, h2]
    simp
  · decide
  · unfold syncToVault
    rw [authenticate_demo0]
    simp only [ensureVault_demo]
    rfl

/-- Witness: C3 instantiated at the linkedin.com example and at a
`selected_domains` settings record with an empty list. -/
theorem c3_auth_only_inclusion_witness :
    ("linkedin.com" ∈ filterDomains [("linkedin.com", [liAt, liTheme])] authOnlyDemoSettings
      ↔ "linkedin.com" ∈ [("linkedin.com", [liAt, liTheme])].map (·.1)
        ∧ (lookupCookies [("linkedin.com", [liAt, liTheme])] "linkedin.com").any
            (fun c => isAuthCookie c) = true)
    ∧ filterDomains [("linkedin.com", [liAt, liTheme])]
        { authOnlyDemoSettings with sync_mode := "selected_domains" } = [] :=
  ⟨(c3_auth_only_inclusion [("linkedin.com", [liAt, liTheme])] authOnlyDemoSettings
      "linkedin.com").1 rfl,
   (c3_auth_only_inclusion [("linkedin.com", [liAt, liTheme])]
      { authOnlyDemoSettings with sync_mode := "selected_domains" } "x").2.2.1 rfl rfl⟩

/-- C10: when `sync_mode` is outside `auth_only`/`selected_domains`/`all`,
`filterDomains` hits the default branch and returns `[]`, so an enabled,
configured `syncToVault` run that authenticates and resolves a vault id
uploads nothing (the remote store is unchanged) and reports success with
zero domains and zero cookies. -/
theorem c10_unknown_mode (R : Remote) (now : Int) (entropy : Nat → List Nat × List Nat)
    (m : List (String × List Cookie)) (s : Settings) (st0 st1 st2 : AuthState)
    (vid : String) (store0 : List CookieEntry)
    (h1 : s.sync_mode ≠ "auth_only") (h2 : s.sync_mode ≠ "selected_domains")
    (h3 : s.sync_mode ≠ "all")
    (hve : s.vault_enabled = true)
    (hurl : (s.supabase_url == "") = false)
    (hkey : (s.vault_key == "") = false)
    (hauth : authenticate R.auth now s st0 = (.ok (), st1))
    (hens : ensureVault R now s st1 = (.ok vid, st2)) :
    filterDomains m s = []
    ∧ syncToVault R now entropy m s st0 store0
        = (.success 0 0 [], st2, store0) := by
  have hfd : filterDomains m s = [] := by
    simp only [filterDomains, if_neg h1, if_neg h2, if_neg h3]
  refine ⟨hfd, ?_⟩
  simp only [syncToVault, hve, Bool.not_true, hurl, hkey, Bool.or_self, if_false,
    hauth, hens, hfd]
  rfl

/-- Witness: C10 at a concrete unknown mode `weird_mode` with the
cooperative remote. -/
theorem c10_unknown_mode_witness :
    filterDomains [("linkedin.com", [liAt, liTheme])] bogusModeSettings = []
    ∧ syncToVault demoRemote 0 demoEntropy [("linkedin.com", [liAt, liTheme])]
        bogusModeSettings initialAuthState [] = (.success 0 0 [], stDemo2, []) :=
  c10_unknown_mode demoRemote 0 demoEntropy [("linkedin.com", [liAt, liTheme])]
    bogusModeSettings initialAuthState stDemo1 stDemo2 "v1" []
    (by decide) (by decide) (by decide) rfl rfl rfl
    (by rw [authenticate.eq_def]; rfl)
    (by unfold ensureVault; rw [authenticate.eq_def]; rfl)

/-- C8: with the vault disabled, `syncToVault` returns the structured
`disabled` result untouched state and store (the conclusion does not
mention the remote, so no endpoint is contacted); with a missing
endpoint URL or passphrase it likewise returns `not_configured`; and
when authentication throws, the outer catch converts the throw into a
structured `notSynced` result carrying the reason instead of raising. -/
theorem c8_guards_structured (R : Remote) (now : Int)
    (entropy : Nat → List Nat × List Nat) (m : List (String × List Cookie))
    (s : Settings) (st0 : AuthState) (store0 : List CookieEntry) :
    (s.vault_enabled = false →
      syncToVault R now entropy m s st0 store0 = (.notSynced "disabled", st0, store0))
    ∧ ((s.supabase_url == "" || s.vault_key == "") = true → s.vault_enabled = true →
      syncToVault R now entropy m s st0 store0 = (.notSynced "not_configured", st0, store0))
    ∧ (∀ e st', authenticate R.auth now s st0 = (.error e, st') →
        s.vault_enabled = true → (s.supabase_url == "" || s.vault_key == "") = false →
        syncToVault R now entropy m s st0 store0 = (.notSynced e, st', store0)) := by
  refine ⟨?_, ?_, ?_⟩
  · intro hve
    simp [syncToVault, hve]
  · intro hcfg hve
    simp [syncToVault, hve, hcfg]
  · intro e st' hauth hve hcfg
    simp only [syncToVault, hve, Bool.not_true, hcfg, if_false, hauth]
    rfl

/-- Witness: C8 at a disabled settings record, a record with an empty
endpoint URL, and a remote rejecting the password grant. -/
theorem c8_guards_structured_witness :
    syncToVault demoRemote 0 demoEntropy []
        { authOnlyDemoSettings with vault_enabled := false } initialAuthState []
      = (.notSynced "disabled", initialAuthState, [])
    ∧ syncToVault demoRemote 0 demoEntropy []
        { authOnlyDemoSettings with supabase_url := "" } initialAuthState []
      = (.notSynced "not_configured", initialAuthState, [])
    ∧ syncToVault failingRemote 0 demoEntropy [] authOnlyDemoSettings initialAuthState []
      = (.notSynced "Auth failed: 400 bad", initialAuthState, []) :=
  ⟨(c8_guards_structured demoRemote 0 demoEntropy []
      { authOnlyDemoSettings with vault_enabled := false } initialAuthState []).1 rfl,
   (c8_guards_structured demoRemote 0 demoEntropy []
      { authOnlyDemoSettings with supabase_url := "" } initialAuthState []).2.1 rfl rfl,
   (c8_guards_structured failingRemote 0 demoEntropy [] authOnlyDemoSettings
      initialAuthState []).2.2 "Auth failed: 400 bad" initialAuthState
      (by rw [authenticate.eq_def]; rfl) rfl rfl⟩

/-- C5: when the session holds a (non-empty) refresh token, the token is
expired, and the remote answers the refresh grant with a non-2xx status,
`authenticate` clears the refresh token and retries with the password
grant: if that grant succeeds the call returns `.ok` with the fresh
token installed (no error surfaces to the caller); an auth error is
returned only when the password grant also fails. -/
theorem c5_refresh_fallback (T : GrantReq → FetchOutcome TokenResponse) (now : Int)
    (s : Settings) (st : AuthState) (rt : String) (status : Nat) (text : String)
    (hrt : st.refreshToken = some rt) (hne : rt ≠ "")
    (hnotvalid : tokenStillValid st now = false)
    (hrefresh : T (GrantReq.refresh rt) = .httpError status text) :
    (∀ data, T (GrantReq.password s.vault_email s.vault_password) = .ok data →
      authenticate T now s st
        = (.ok (), { st with
            accessToken := some data.access_token,
            refreshToken := some data.refresh_token,
            userId := some data.user_id,
            tokenExpiresAt := now + data.expires_in * 1000 }))
    ∧ (∀ status2 text2,
        T (GrantReq.password s.vault_email s.vault_password) = .httpError status2 text2 →
      authenticate T now s st
        = (.error ("Auth failed: " ++ toString status2 ++ " " ++ text2),
            { st with refreshToken := none })) := by
  have htr : truthy (some rt) = true := by simpa [truthy] using hne
  have hfn : truthy (none : Option String) = false := rfl
  have hnv2 : tokenStillValid { st with refreshToken := none } now = false := hnotvalid
  refine ⟨?_, ?_⟩
  · intro data hpw
    rw [authenticate.eq_def]
    rw [authenticate.eq_def]
    simp [hnotvalid, htr, hrt, hrefresh, hpw, hnv2, hfn]
  · intro status2 text2 hpw
    rw [authenticate.eq_def]
    rw [authenticate.eq_def]
    simp [hnotvalid, htr, hrt, hrefresh, hpw, hnv2, hfn]

/-- Witness: C5 at a concrete rejected refresh grant followed by a
successful password grant. -/
theorem c5_refresh_fallback_witness :
    authenticate refreshRejectAuth 0 authOnlyDemoSettings stWithRefresh
      = (.ok (), { stWithRefresh with
          accessToken := some demoToken.access_token,
          refreshToken := some demoToken.refresh_token,
          userId := some demoToken.user_id,
          tokenExpiresAt := 0 + demoToken.expires_in * 1000 }) :=
  (c5_refresh_fallback refreshRejectAuth 0 authOnlyDemoSettings stWithRefresh
    "oldrt" 401 "invalid_grant" rfl (by decide) rfl rfl).1 demoToken rfl

/-- One entry's decryption when the Node decrypt yields a JSON array. -/
theorem decryptEntryList_eq (e : VEntry) (vk : String) (l : List Json)
    (h : nodeDecrypt e.encrypted_data e.iv e.salt vk = .ok (Json.arr l)) :
    decryptEntryList e vk = .ok l := by
  unfold decryptEntryList
  rw [h]

/-- The spec-worded bidirectional read on a single matching entry with no
age limit returns that entry's decrypted list. -/
theorem bidirSpec_single (e : VEntry) (d vk : String) (now : Int) (l : List Json)
    (hmatch : (strContains e.domain d || strContains d e.domain) = true)
    (hdec : decryptEntryList e vk = .ok l) :
    getCookiesBidirSpec d none [e] now vk = .ok l := by
  unfold getCookiesBidirSpec
  simp [List.filter, hmatch, hdec, entryTooOld]

/-- C6 counterexample: the spec claims bidirectional substring matching
(entry domain contains the query, or the query contains the entry
domain).  For stored domain `x.com` and query `sub.x.com` the
bidirectional semantics decrypts and returns the stored cookies, but
`getCookies` — whose `ilike.*d*` filter only tests that the *stored*
domain contains the query — matches nothing and returns `[]`: the two
semantics disagree at this input. -/
theorem c6_counterexample :
    getCookies "sub.x.com" none [c6Entry] 0 "key" = .ok []
    ∧ getCookiesBidirSpec "sub.x.com" none [c6Entry] 0 "key"
        = .ok [Json.obj [("name", .str "sessionid"), ("value", .str "abc"),
                ("domain", .str ".x.com"), ("secure", .bool true)]]
    ∧ getCookies "sub.x.com" none [c6Entry] 0 "key"
        ≠ getCookiesBidirSpec "sub.x.com" none [c6Entry] 0 "key" := by
  have h1 : getCookies "sub.x.com" none [c6Entry] 0 "key" = .ok [] := by
    unfold getCookies
    rw [show [c6Entry].filter (fun e => ilikeContains e.domain "sub.x.com") = [] from rfl]
    rfl
  have hdec : nodeDecrypt c6Entry.encrypted_data c6Entry.iv c6Entry.salt "key"
      = .ok demoPayload :=
    nodeDecrypt_encryptCookies demoPayload "key" (List.replicate 16 7)
      (List.replicate 12 3) (by decide) (by decide)
  have hdl : decryptEntryList c6Entry "key"
      = .ok [Json.obj [("name", .str "sessionid"), ("value", .str "abc"),
              ("domain", .str ".x.com"), ("secure", .bool true)]] :=
    decryptEntryList_eq c6Entry "key" _ hdec
  have h2 : getCookiesBidirSpec "sub.x.com" none [c6Entry] 0 "key"
      = .ok [Json.obj [("name", .str "sessionid"), ("value", .str "abc"),
              ("domain", .str ".x.com"), ("secure", .bool true)]] :=
    bidirSpec_single c6Entry "sub.x.com" "key" 0 _ rfl hdl
  refine ⟨h1, h2, ?_⟩
  rw [h1, h2]
  simp

/-- An error accumulator short-circuits the rest of the read fold. -/
theorem getCookies_fold_error (maxAge : Option Int) (now : Int) (vk : String)
    (es : List VEntry) (err : DecryptError) :
    es.foldl (fun acc e =>
      match acc with
      | .error err => .error err
      | .ok collected =>
        if entryTooOld maxAge now e.synced_at then .ok collected
        else match decryptEntryList e vk with
          | .ok cookies => .ok (collected ++ cookies)
          | .error err => .error err)
      (Except.error err : Except DecryptError (List Json))
    = .error err := by
  induction es with
  | nil => rfl
  | cons e rest ih => simpa using ih

/-- The read fold equals age-filtering then ordered
decrypt-and-concatenate. -/
theorem getCookies_fold_eq (maxAge : Option Int) (now : Int) (vk : String)
    (es : List VEntry) (acc : List Json) :
    es.foldl (fun acc e =>
      match acc with
      | .error err => .error err
      | .ok collected =>
        if entryTooOld maxAge now e.synced_at then .ok collected
        else match decryptEntryList e vk with
          | .ok cookies => .ok (collected ++ cookies)
          | .error err => .error err) (.ok acc)
    = (decryptConcat vk (es.filter (fun e => !entryTooOld maxAge now e.synced_at))).map
        (fun ls => acc ++ ls) := by
  induction es generalizing acc with
  | nil => simp [decryptConcat, Except.map]
  | cons e rest ih =>
    rw [List.foldl_cons, List.filter_cons]
    by_cases hage : entryTooOld maxAge now e.synced_at = true
    · simp [hage, ih]
    · simp only [Bool.not_eq_true] at hage
      cases hde : decryptEntryList e vk with
      | error err =>
        simp [hage, hde, getCookies_fold_error, decryptConcat, Except.map]
      | ok cookies =>
        simp only [hage, hde, Bool.not_false, Bool.false_eq_true, if_false, if_true,
          List.filter_cons, decryptConcat]
        rw [ih (acc ++ cookies)]
        cases hX : decryptConcat vk (rest.filter (fun e => !entryTooOld maxAge now e.synced_at)) <;>
          simp [hX, List.append_assoc, Except.map]

/-- C6 (amended): for every query domain, age option, remote entry set,
time and key, `getCookies` equals the amended read-side
characterization — one-directional ilike matching (the *stored* domain
contains the query), the age filter, then ordered
decrypt-and-concatenate with the first failure propagating; in
particular an empty match set yields `.ok []`, never an error. -/
theorem c6_amended (domain : String) (maxAge : Option Int) (entries : List VEntry)
    (now : Int) (vk : String) :
    getCookies domain maxAge entries now vk
      = getCookiesAmendedSpec domain maxAge entries now vk := by
  unfold getCookies getCookiesAmendedSpec
  cases hE : entries.filter (fun e => ilikeContains e.domain domain) with
  | nil => simp [decryptConcat]
  | cons a l =>
    simp only [hE, List.length_cons]
    rw [getCookies_fold_eq]
    cases hX : decryptConcat vk ((a :: l).filter (fun e => !entryTooOld maxAge now e.synced_at)) <;>
      simp [hX, Except.map]

/-- C2 (code bug): syncing `a.com` (1 cookie, upsert accepted) and
`b.com` (2 cookies, upsert rejected with HTTP 409): because the upsert
uses a raw `fetch` whose `response.ok` is never checked, the rejection
is invisible — the run returns `synced: true` with 2 domains, ALL 3
cookies counted and an empty error list, while the remote store holds
only `a.com`'s entry.  The spec instead requires `syncedDomainCount=1`
and `perDomainErrors` containing `b.com`. -/
theorem c2_response_ok_bug :
    syncToVault c2Remote 0 demoEntropy [("a.com", [cA]), ("b.com", [cB1, cB2])]
        allModeSettings initialAuthState []
      = (.success 2 3 [], stDemo2,
          [mkEntry "v1" "u1" "a.com" [cA] "key"
            (List.replicate 16 7) (List.replicate 12 3) 0])
    ∧ (syncToVault c2Remote 0 demoEntropy [("a.com", [cA]), ("b.com", [cB1, cB2])]
        allModeSettings initialAuthState []).1
      ≠ .success 1 1 [("b.com", "conflict")] := by
  have ha : authenticate c2Remote.auth 0 allModeSettings initialAuthState
      = (.ok (), stDemo1) := by
    rw [authenticate.eq_def]; rfl
  have he : ensureVault c2Remote 0 allModeSettings stDemo1 = (.ok "v1", stDemo2) := by
    unfold ensureVault
    rw [authenticate.eq_def]
    rfl
  have hmain : syncToVault c2Remote 0 demoEntropy [("a.com", [cA]), ("b.com", [cB1, cB2])]
      allModeSettings initialAuthState []
      = (.success 2 3 [], stDemo2,
          [mkEntry "v1" "u1" "a.com" [cA] "key"
            (List.replicate 16 7) (List.replicate 12 3) 0]) := by
    unfold syncToVault
    rw [ha]
    simp only [he]
    rfl
  refine ⟨hmain, ?_⟩
  rw [hmain]
  simp

/-- `upsertEntry` preserves key distinctness: a matching row is
replaced in place, a new key is appended. -/
theorem upsertEntry_keysDistinct (store : List CookieEntry) (e : CookieEntry)
    (h : storeKeysDistinct store) : storeKeysDistinct (upsertEntry store e) := by
  unfold upsertEntry
  by_cases hm : store.any (fun x => entryKeyMatch x e.vault_id e.domain) = true
  · simp only [hm, if_true]
    unfold storeKeysDistinct at h ⊢
    rw [List.pairwise_map]
    refine h.imp ?_
    intro a b hab
    by_cases ha : entryKeyMatch a e.vault_id e.domain = true
    · by_cases hb : entryKeyMatch b e.vault_id e.domain = true
      · exfalso
        apply hab
        simp only [entryKeyMatch, Bool.and_eq_true, beq_iff_eq] at ha hb
        exact ⟨ha.1.trans hb.1.symm, ha.2.trans hb.2.symm⟩
      · simp only [ha, hb, if_true, if_false]
        simp only [entryKeyMatch, Bool.and_eq_true, beq_iff_eq] at ha
        intro hcon
        exact hab ⟨ha.1.trans hcon.1, ha.2.trans hcon.2⟩
    · by_cases hb : entryKeyMatch b e.vault_id e.domain = true
      · simp only [ha, hb, if_true, if_false]
        simp only [entryKeyMatch, Bool.and_eq_true, beq_iff_eq] at ha
        intro hcon
        exact ha ⟨hcon.1, hcon.2⟩
      · simp only [ha, hb, if_false]
        exact hab
  · have hm' : store.any (fun x => entryKeyMatch x e.vault_id e.domain) = false := by
      rwa [Bool.not_eq_true] at hm
    simp only [hm', Bool.false_eq_true, if_false]
    have hall := List.any_eq_false.mp hm'
    unfold storeKeysDistinct at h ⊢
    rw [List.pairwise_append]
    refine ⟨h, List.pairwise_singleton _ _, ?_⟩
    intro a ha' b hb'
    simp only [List.mem_singleton] at hb'
    subst hb'
    have := hall a ha'
    simp only [entryKeyMatch, Bool.and_eq_true, beq_iff_eq] at this
    exact fun hcon => this ⟨hcon.1, hcon.2⟩

/-- The per-domain sync loop preserves key distinctness of its store
accumulator. -/
theorem syncFold_keysDistinct (R : Remote) (now : Int) (s : Settings)
    (vaultId userId : String) (cookiesByDomain : List (String × List Cookie))
    (entropy : Nat → List Nat × List Nat)
    (ds : List String) (acc : Nat × Nat × List (String × String) × List CookieEntry)
    (h : storeKeysDistinct acc.2.2.2) :
    storeKeysDistinct ((ds.foldl (fun acc domain =>
      let cookies := lookupCookies cookiesByDomain domain
      let se := entropy acc.1
      let entry := mkEntry vaultId userId domain cookies s.vault_key se.1 se.2 now
      match R.upsert domain with
      | .netFail msg => (acc.1 + 1, acc.2.1, acc.2.2.1 ++ [(domain, msg)], acc.2.2.2)
      | .httpRejected _ _ => (acc.1 + 1, acc.2.1 + cookies.length, acc.2.2.1, acc.2.2.2)
      | .accepted => (acc.1 + 1, acc.2.1 + cookies.length, acc.2.2.1,
          upsertEntry acc.2.2.2 entry)) acc).2.2.2) := by
  induction ds generalizing acc with
  | nil => exact h
  | cons d rest ih =>
    rw [List.foldl_cons]
    apply ih
    cases hu : R.upsert d <;> simp only [hu]
    · exact upsertEntry_keysDistinct _ _ h
    · exact h
    · exact h

/-- A whole `syncToVault` run preserves key distinctness. -/
theorem syncToVault_keysDistinct (R : Remote) (now : Int)
    (entropy : Nat → List Nat × List Nat) (m : List (String × List Cookie))
    (s : Settings) (st0 : AuthState) (store0 : List CookieEntry)
    (h : storeKeysDistinct store0) :
    storeKeysDistinct (syncToVault R now entropy m s st0 store0).2.2 := by
  unfold syncToVault
  split
  · exact h
  · split
    · exact h
    · split
      · exact h
      · split
        · exact h
        · dsimp only
          split
          · exact h
          · exact syncFold_keysDistinct R now s _ _ m entropy _ _ h

/-- C7: the remote store keeps at most one entry per `(vault_id, domain)`
key — `upsertEntry` (the `Prefer: resolution=merge-duplicates` POST
against `unique(vault_id, domain)`) and therefore every `syncToVault`
run preserve key distinctness — and writing the same domain twice with
different cookie sets leaves exactly one entry for that key, whose
contents are the second write's. -/
theorem c7_upsert_idempotent :
    (∀ (store : List CookieEntry) (e : CookieEntry), storeKeysDistinct store →
      storeKeysDistinct (upsertEntry store e))
    ∧ (∀ (R : Remote) (now : Int) (entropy : Nat → List Nat × List Nat)
        (m : List (String × List Cookie)) (s : Settings) (st0 : AuthState)
        (store0 : List CookieEntry), storeKeysDistinct store0 →
        storeKeysDistinct (syncToVault R now entropy m s st0 store0).2.2)
    ∧ (syncToVault demoRemote 0 demoEntropy [("linkedin.com", [liAt])]
        authOnlyDemoSettings stDemo2
        [mkEntry "v1" "u1" "linkedin.com" [liAt, liTheme] "key"
          (List.replicate 16 7) (List.replicate 12 3) 0]).2.2
      = [mkEntry "v1" "u1" "linkedin.com" [liAt] "key"
          (List.replicate 16 7) (List.replicate 12 3) 0] := by
  refine ⟨upsertEntry_keysDistinct, syncToVault_keysDistinct, ?_⟩
  have hauth : authenticate demoRemote.auth 0 authOnlyDemoSettings stDemo2
      = (.ok (), stDemo2) := by
    rw [authenticate.eq_def]; rfl
  unfold syncToVault
  rw [hauth]
  rfl

/-- Witness: C7 at an insert into the empty store and at the concrete
linkedin.com sync run. -/
theorem c7_upsert_idempotent_witness :
    storeKeysDistinct (upsertEntry []
      (mkEntry "v1" "u1" "a.com" [cA] "key" (List.replicate 16 7)
        (List.replicate 12 3) 0))
    ∧ storeKeysDistinct (syncToVault demoRemote 0 demoEntropy
        [("linkedin.com", [liAt, liTheme])] authOnlyDemoSettings
        initialAuthState []).2.2 :=
  ⟨c7_upsert_idempotent.1 _ _ List.Pairwise.nil,
   c7_upsert_idempotent.2.1 demoRemote 0 demoEntropy
     [("linkedin.com", [liAt, liTheme])] authOnlyDemoSettings
     initialAuthState [] List.Pairwise.nil⟩

/-- C9 counterexample: from the shared fresh state (no valid token),
caller 1 runs `authenticate`'s synchronous prefix and suspends at the
grant fetch; the event loop then runs caller 2's prefix, which sees the
still-unchanged shared state and issues its own grant.  Two grant
requests are now in flight at once — there is no single-flight gate in
`authenticate` — refuting the claimed mutual exclusion (at most one in
flight). -/
theorem c9_counterexample :
    grantsInFlight (runSeg1Caller2 0 authOnlyDemoSettings
      (runSeg1Caller1 0 authOnlyDemoSettings
        { shared := initialAuthState, caller1 := .ready, caller2 := .ready })) = 2
    ∧ ¬(grantsInFlight (runSeg1Caller2 0 authOnlyDemoSettings
      (runSeg1Caller1 0 authOnlyDemoSettings
        { shared := initialAuthState, caller1 := .ready, caller2 := .ready })) ≤ 1) := by
  constructor
  · rfl
  · decide

/-- C9 (amended): whenever the shared token is not valid, two concurrent
callers that each run `authenticate`'s synchronous prefix before either
response arrives BOTH issue a grant request: the in-flight count reaches
exactly 2 (duplicate grants are possible; no caller waits on the
other's attempt). -/
theorem c9_amended (now : Int) (s : Settings) (cs : ConcState)
    (hnv : tokenStillValid cs.shared now = false) :
    grantsInFlight (runSeg1Caller2 now s (runSeg1Caller1 now s cs)) = 2 := by
  unfold runSeg1Caller1 runSeg1Caller2 grantsInFlight authSegment1
  simp [hnv]

/-- Witness: C9 amended at the fresh shared state. -/
theorem c9_amended_witness :
    grantsInFlight (runSeg1Caller2 0 authOnlyDemoSettings
      (runSeg1Caller1 0 authOnlyDemoSettings
        { shared := initialAuthState, caller1 := .ready, caller2 := .ready })) = 2 :=
  c9_amended 0 authOnlyDemoSettings
    { shared := initialAuthState, caller1 := .ready, caller2 := .ready } rfl
